import Mathlib

/-!
Verification development for the chalice source analyzer
(`chalice/analyzer.py`): a simplified abstract interpreter that walks a
Python AST, infers boto3-related types, and collects every call site whose
inferred type is `Boto3ClientMethodCallType` into a mapping
service name -> set of method names.

The embedding is shallow: the relevant Python AST node kinds become an
inductive type, each node carrying a numeric id; the in-place mutation of
`node.inferred_type` and of symtable symbols becomes an explicit analyzer
state (maps from node id, and from (scope id, symbol name), to values);
Python exceptions (`KeyError` from `symtable.lookup`, `ValueError` from the
chained-table helpers) become an `Except` monad; the unbounded
interprocedural recursion of `_infer_function_call` is made total with a
fuel parameter (running out of fuel is a distinguished error that real runs
with enough fuel never hit).  The `symtable` module itself is an external
collaborator: the scope descriptor (declared symbols, per-symbol
local/global classification, child scopes) is an input, constructed by hand
for each concrete program exactly as the CPython `symtable` would.
-/

namespace Chalice

/-- Python expression nodes used by the analyzer, each with a unique node id
(the id plays the role of the object identity of the node, to which
`inferred_type` is attached). -/
inductive PExpr : Type
  | name : Nat → String → PExpr
  | str : Nat → String → PExpr
  | attribute : Nat → PExpr → String → PExpr
  | call : Nat → PExpr → List PExpr → PExpr

/-- Python statement nodes used by the analyzer.  `importStmt` carries the
`ast.alias` list as (name, asname) pairs; `functionDef` carries node id,
function name, positional parameter names, decorator list and body. -/
inductive PStmt : Type
  | importStmt : Nat → List (String × Option String) → PStmt
  | assign : Nat → List PExpr → PExpr → PStmt
  | exprStmt : Nat → PExpr → PStmt
  | ret : Nat → Option PExpr → PStmt
  | functionDef : Nat → String → List String → List PExpr → List PStmt → PStmt

/-- An `ast.Module`: top-level node id plus statement body. -/
structure PModule where
  nid : Nat
  body : List PStmt

def PExpr.nid : PExpr → Nat
  | .name n _ => n
  | .str n _ => n
  | .attribute n _ _ => n
  | .call n _ _ => n

def PStmt.nid : PStmt → Nat
  | .importStmt n _ => n
  | .assign n _ _ => n
  | .exprStmt n _ => n
  | .ret n _ => n
  | .functionDef n _ _ _ _ => n

/-- Positional parameter names of a registered `functionDef`
(`def_node.args.args`); only function definitions are ever registered. -/
def PStmt.params : PStmt → List String
  | .functionDef _ _ ps _ _ => ps
  | _ => []

/-- The inferred-type lattice of the analyzer.  `boto3ClientMethodCall` is
the terminal type the collector harvests.  `stringLiteral` is the
pseudo-type (class `StringLiteral`) that lets literal strings flow through
assignments.  All comparisons in the source are structural (`BaseType.__eq__`
compares class and payload), which `DecidableEq` mirrors. -/
inductive Ty : Type
  | boto3Module
  | boto3CreateClient
  | boto3Client (service : String)
  | boto3ClientMethod (service method : String)
  | boto3ClientMethodCall (service method : String)
  | functionType (returnType : Ty)
  | stringLiteral (value : String)
  deriving DecidableEq

/-- Errors that abort the whole analysis: `keyError` from
`symtable.lookup` on an undeclared name, `valueError` from
`lookup_sub_namespace` / `lookup_ast_node_for_symbol`, and the
fuel-exhaustion artifact of the embedding. -/
inductive AErr : Type
  | keyError (name : String)
  | valueError (name : String)
  | outOfFuel
  deriving DecidableEq

/-- One declared symbol of a symtable scope: its name and the result of
`Symbol.is_global()` there. -/
structure SymInfo where
  name : String
  isGlobal : Bool

/-- A symtable scope: numeric scope id (object identity of the table),
`get_name()`, declared symbols, and child scopes. -/
inductive ScopeT : Type
  | mk : Nat → String → List SymInfo → List ScopeT → ScopeT

def ScopeT.sid : ScopeT → Nat
  | .mk s _ _ _ => s

def ScopeT.sname : ScopeT → String
  | .mk _ n _ _ => n

def ScopeT.symbols : ScopeT → List SymInfo
  | .mk _ _ sys _ => sys

def ScopeT.children : ScopeT → List ScopeT
  | .mk _ _ _ cs => cs

/-- `table.lookup(name)`: `some` the declared symbol, `none` for the
`KeyError` case. -/
def ScopeT.lookup (t : ScopeT) (name : String) : Option SymInfo :=
  t.symbols.find? (fun s => s.name = name)

/-- Mutable analyzer state: `inferred_type` attached to AST nodes (by node
id), `inferred_type` attached to symtable symbols (by scope id and symbol
name), and `ast_node` registered on symbols (by scope id and symbol name). -/
structure AState where
  nodeTy : Nat → Option Ty
  symTy : Nat → String → Option Ty
  symNode : Nat → String → Option PStmt

def initState : AState :=
  ⟨fun _ => none, fun _ _ => none, fun _ _ => none⟩

def setNode (f : Nat → Option Ty) (n : Nat) (v : Option Ty) : Nat → Option Ty :=
  fun m => if m = n then v else f m

def setSym (f : Nat → String → Option Ty) (sid : Nat) (name : String)
    (v : Option Ty) : Nat → String → Option Ty :=
  fun s x => if s = sid ∧ x = name then v else f s x

def setSymNode (f : Nat → String → Option PStmt) (sid : Nat) (name : String)
    (v : PStmt) : Nat → String → Option PStmt :=
  fun s x => if s = sid ∧ x = name then some v else f s x

/-- `ChainedSymbolTable`: a local table and a global (fallback) table.  At
module level both are the module table. -/
structure CST where
  localTable : ScopeT
  globalTable : ScopeT

/-- `ChainedSymbolTable.get_inferred_type`: resolve in the local table
(`KeyError` aborts if undeclared); if the symbol `is_global()`, re-resolve
in the global table, where absence is not an error (builtin scope is
untracked) and yields no type. -/
def CST.get_inferred_type (t : CST) (st : AState) (name : String) :
    Except AErr (Option Ty) :=
  match t.localTable.lookup name with
  | none => .error (.keyError name)
  | some sym =>
    if sym.isGlobal then
      match t.globalTable.lookup name with
      | none => .ok none
      | some _ => .ok (st.symTy t.globalTable.sid name)
    else
      .ok (st.symTy t.localTable.sid name)

/-- `ChainedSymbolTable.set_inferred_type`: always writes the local
symbol of the local table; `KeyError` aborts if the name is not declared locally. -/
def CST.set_inferred_type (t : CST) (st : AState) (name : String)
    (v : Option Ty) : Except AErr AState :=
  match t.localTable.lookup name with
  | none => .error (.keyError name)
  | some _ =>
    .ok { st with symTy := setSym st.symTy t.localTable.sid name v }

/-- `ChainedSymbolTable.lookup_sub_namespace`: search the children of the local
table first, then those of the global table; `ValueError` if absent
from both. -/
def CST.lookup_sub_namespace (t : CST) (name : String) : Except AErr CST :=
  match t.localTable.children.find? (fun c => c.sname = name) with
  | some child => .ok ⟨child, t.localTable⟩
  | none =>
    match t.globalTable.children.find? (fun c => c.sname = name) with
    | some child => .ok ⟨child, t.globalTable⟩
    | none => .error (.valueError name)

/-- `ChainedSymbolTable.register_ast_node_for_symbol`: record the defining
AST node on the locally declared symbol. -/
def CST.register_ast_node (t : CST) (st : AState) (name : String)
    (node : PStmt) : Except AErr AState :=
  match t.localTable.lookup name with
  | none => .error (.keyError name)
  | some _ =>
    .ok { st with symNode := setSymNode st.symNode t.localTable.sid name node }

/-- `ChainedSymbolTable.lookup_ast_node_for_symbol`: resolve the symbol
(global fallback like type lookup), then return its registered node;
`ValueError` when no node was registered. -/
def CST.lookup_ast_node (t : CST) (st : AState) (name : String) :
    Except AErr PStmt :=
  match t.localTable.lookup name with
  | none => .error (.keyError name)
  | some sym =>
    if sym.isGlobal then
      match t.globalTable.lookup name with
      | none => .error (.keyError name)
      | some _ =>
        match st.symNode t.globalTable.sid name with
        | none => .error (.valueError name)
        | some node => .ok node
    else
      match st.symNode t.localTable.sid name with
      | none => .error (.valueError name)
      | some node => .ok node

/-- `ChainedSymbolTable.has_ast_node_for_symbol`: probe form of
`lookup_ast_node`, catching `ValueError`/`KeyError`. -/
def CST.has_ast_node (t : CST) (st : AState) (name : String) : Bool :=
  match t.lookup_ast_node st name with
  | .ok _ => true
  | .error _ => false

/-- `SymbolTableTypeInfer._SDK_PACKAGE`. -/
def SDK_PACKAGE : String := "boto3"

/-- `SymbolTableTypeInfer._CREATE_CLIENT`. -/
def CREATE_CLIENT : String := "client"

/-- The loop body of `visit_Import`: bind the SDK package name (the
`alias.name`, never the asname) to `Boto3ModuleType` when it is imported. -/
def processImports (tbl : CST) : List (String × Option String) → AState →
    Except AErr AState
  | [], st => .ok st
  | (nm, _) :: rest, st =>
    if nm = SDK_PACKAGE then
      match tbl.set_inferred_type st nm (some .boto3Module) with
      | .error err => .error err
      | .ok st1 => processImports tbl rest st1
    else
      processImports tbl rest st

/-- The target loop of `visit_Assign`: every simple-name target gets the
right-hand inferred type both on its symbol and on the target node; other
target shapes are skipped. -/
def assignTargets (tbl : CST) (rhs : Option Ty) : List PExpr → AState →
    Except AErr AState
  | [], st => .ok st
  | t :: rest, st =>
    match t with
    | .name tnid tid =>
      match tbl.set_inferred_type st tid rhs with
      | .error err => .error err
      | .ok st1 =>
        assignTargets tbl rhs rest { st1 with nodeTy := setNode st1.nodeTy tnid rhs }
    | _ => assignTargets tbl rhs rest st

/-- `SymbolTableTypeInfer._map_function_params`: zip positional call
arguments with declared parameters; arguments whose node has an inferred
type set it on the corresponding parameter symbol of the child scope;
excess or missing arguments on either side are simply not mapped. -/
def mapFunctionParams (sub : CST) : List PExpr → List String → AState →
    Except AErr AState
  | [], _, st => .ok st
  | _, [], st => .ok st
  | a :: args, p :: ps, st =>
    match st.nodeTy a.nid with
    | none => mapFunctionParams sub args ps st
    | some ty =>
      match sub.set_inferred_type st p (some ty) with
      | .error err => .error err
      | .ok st1 => mapFunctionParams sub args ps st1

mutual

/-- The expression part of `SymbolTableTypeInfer.visit` / `generic_visit`:
`visit_Name`, `visit_Attribute`, `visit_Call` (string literals have no
visitor and are left unannotated).  Fuel makes the unbounded
interprocedural recursion total. -/
def inferExpr (fuel : Nat) (tbl : CST) (ns : Nat) (e : PExpr) (st : AState) :
    Except AErr AState :=
  match fuel with
  | 0 => .error .outOfFuel
  | Nat.succ fuel =>
    match e with
    | .name nid id =>
      match tbl.get_inferred_type st id with
      | .error err => .error err
      | .ok ty => .ok { st with nodeTy := setNode st.nodeTy nid ty }
    | .str _ _ => .ok st
    | .attribute nid value attr =>
      match inferExpr fuel tbl ns value st with
      | .error err => .error err
      | .ok st1 =>
        match st1.nodeTy value.nid with
        | none => .ok st1
        | some .boto3Module =>
          if attr = CREATE_CLIENT then
            .ok { st1 with nodeTy := setNode st1.nodeTy nid (some .boto3CreateClient) }
          else
            .ok st1
        | some (.boto3Client s) =>
          .ok { st1 with nodeTy := setNode st1.nodeTy nid (some (.boto3ClientMethod s attr)) }
        | some _ => .ok st1
    | .call nid func args =>
      match inferExpr fuel tbl ns func st with
      | .error err => .error err
      | .ok st1 =>
        match inferExprList fuel tbl ns args st1 with
        | .error err => .error err
        | .ok st2 =>
          match st2.nodeTy func.nid with
          | some .boto3CreateClient =>
            match args with
            | [] => .ok st2
            | a :: _ =>
              match a with
              | .str _ v =>
                .ok { st2 with nodeTy := setNode st2.nodeTy nid (some (.boto3Client v)) }
              | _ =>
                match st2.nodeTy a.nid with
                | some (.stringLiteral v) =>
                  .ok { st2 with nodeTy := setNode st2.nodeTy nid (some (.boto3Client v)) }
                | _ => .ok st2
          | some (.boto3ClientMethod s m) =>
            .ok { st2 with nodeTy := setNode st2.nodeTy nid (some (.boto3ClientMethodCall s m)) }
          | some (.boto3ClientMethodCall s m) =>
            .ok { st2 with nodeTy := setNode st2.nodeTy nid (some (.boto3ClientMethodCall s m)) }
          | some (.functionType rt) =>
            .ok { st2 with nodeTy := setNode st2.nodeTy nid (some rt) }
          | _ =>
            match func with
            | .name _ fid =>
              if tbl.has_ast_node st2 fid then
                inferFunctionCall fuel tbl nid fid args st2
              else
                .ok st2
            | _ => .ok st2
termination_by structural fuel

/-- Sequential visit of a list of child expressions (argument lists,
assignment targets), as `generic_visit` does. -/
def inferExprList (fuel : Nat) (tbl : CST) (ns : Nat) (es : List PExpr)
    (st : AState) : Except AErr AState :=
  match fuel with
  | 0 => .error .outOfFuel
  | Nat.succ fuel =>
    match es with
    | [] => .ok st
    | e :: rest =>
      match inferExpr fuel tbl ns e st with
      | .error err => .error err
      | .ok st1 => inferExprList fuel tbl ns rest st1
termination_by structural fuel

/-- The statement part of the engine: `visit_Import`, `visit_Assign`
(targets are visited before the value, per AST field order), plain `Expr`
statements via `generic_visit`, `visit_Return`, and `visit_FunctionDef`
(direct body traversal when the definition is the namespace being
analyzed, lazy registration otherwise). -/
def inferStmt (fuel : Nat) (tbl : CST) (ns : Nat) (s : PStmt) (st : AState) :
    Except AErr AState :=
  match fuel with
  | 0 => .error .outOfFuel
  | Nat.succ fuel =>
    match s with
    | .importStmt _ names => processImports tbl names st
    | .assign _ targets value =>
      match inferExprList fuel tbl ns targets st with
      | .error err => .error err
      | .ok st1 =>
        match inferExpr fuel tbl ns value st1 with
        | .error err => .error err
        | .ok st2 =>
          match st2.nodeTy value.nid with
          | some rhs => assignTargets tbl (some rhs) targets st2
          | none =>
            match value with
            | .str vnid v =>
              assignTargets tbl (some (.stringLiteral v)) targets
                { st2 with nodeTy := setNode st2.nodeTy vnid (some (.stringLiteral v)) }
            | _ => assignTargets tbl none targets st2
    | .exprStmt _ value => inferExpr fuel tbl ns value st
    | .ret nid oval =>
      match oval with
      | none => .ok st
      | some v =>
        match inferExpr fuel tbl ns v st with
        | .error err => .error err
        | .ok st1 =>
          match st1.nodeTy v.nid with
          | none => .ok st1
          | some ty =>
            .ok { st1 with
                  nodeTy := setNode (setNode st1.nodeTy nid (some ty)) ns
                    (some (.functionType ty)) }
    | .functionDef _ name _ _ body =>
      if name = tbl.localTable.sname then
        inferBody fuel tbl ns body st
      else
        tbl.register_ast_node st name s
termination_by structural fuel

/-- Sequential visit of a statement list (a module or function body). -/
def inferBody (fuel : Nat) (tbl : CST) (ns : Nat) (ss : List PStmt)
    (st : AState) : Except AErr AState :=
  match fuel with
  | 0 => .error .outOfFuel
  | Nat.succ fuel =>
    match ss with
    | [] => .ok st
    | s :: rest =>
      match inferStmt fuel tbl ns s st with
      | .error err => .error err
      | .ok st1 => inferBody fuel tbl ns rest st1
termination_by structural fuel

/-- `SymbolTableTypeInfer._infer_function_call`: enter the child
scope of the callee, map positional argument types onto parameters, analyze
the callee body there, record the resulting type on the callee symbol, and
give the call node the return type when a `FunctionType` came out. -/
def inferFunctionCall (fuel : Nat) (tbl : CST) (nid : Nat) (fname : String)
    (args : List PExpr) (st : AState) : Except AErr AState :=
  match fuel with
  | 0 => .error .outOfFuel
  | Nat.succ fuel =>
    match tbl.lookup_sub_namespace fname with
    | .error err => .error err
    | .ok sub =>
      match tbl.lookup_ast_node st fname with
      | .error err => .error err
      | .ok dnode =>
        match mapFunctionParams sub args dnode.params st with
        | .error err => .error err
        | .ok st1 =>
          match bindTypesDef fuel sub dnode st1 with
          | .error err => .error err
          | .ok st2 =>
            match tbl.set_inferred_type st2 fname (st2.nodeTy dnode.nid) with
            | .error err => .error err
            | .ok st3 =>
              match st2.nodeTy dnode.nid with
              | some (.functionType rt) =>
                .ok { st3 with nodeTy := setNode st3.nodeTy nid (some rt) }
              | _ => .ok st3
termination_by structural fuel

/-- `child_infer.bind_types(ParsedCode(ast_node, sub_table))`: run the
engine over the registered definition node with the child scope as current
namespace (the definition node itself is the `_current_ast_namespace`). -/
def bindTypesDef (fuel : Nat) (tbl : CST) (dnode : PStmt) (st : AState) :
    Except AErr AState :=
  match fuel with
  | 0 => .error .outOfFuel
  | Nat.succ fuel => inferStmt fuel tbl dnode.nid dnode st
termination_by structural fuel

end

/-- `bind_types` on a parsed module: `visit(Module)` has no specific
visitor, so `generic_visit` walks the statement body with the module node
as current namespace. -/
def bindTypesModule (fuel : Nat) (tbl : CST) (m : PModule) (st : AState) :
    Except AErr AState :=
  inferBody fuel tbl m.nid m.body st

/-- The result mapping: association list from service name to the list of
collected method names (the embedding of the Python dict of sets; methods
are kept deduplicated in first-seen order). -/
abbrev ApiMap : Type := List (String × List String)

/-- `self.api_calls.setdefault(service, set()).add(method)`. -/
def addCall (acc : ApiMap) (s m : String) : ApiMap :=
  match acc with
  | [] => [(s, [m])]
  | (s0, ms0) :: rest =>
    if s0 = s then
      (s0, if m ∈ ms0 then ms0 else ms0 ++ [m]) :: rest
    else
      (s0, ms0) :: addCall rest s m

/-- The per-node check of `APICallCollector.visit`: harvest a node
annotation when it is a `Boto3ClientMethodCallType`. -/
def collectNode (st : AState) (acc : ApiMap) (n : Nat) : ApiMap :=
  match st.nodeTy n with
  | some (.boto3ClientMethodCall s m) => addCall acc s m
  | _ => acc

mutual

/-- `APICallCollector` traversal over expressions (pre-order: node check,
then children in AST field order). -/
def collectExpr (st : AState) (acc : ApiMap) : PExpr → ApiMap
  | .name nid _ => collectNode st acc nid
  | .str nid _ => collectNode st acc nid
  | .attribute nid b _ => collectExpr st (collectNode st acc nid) b
  | .call nid f args => collectExprList st (collectExpr st (collectNode st acc nid) f) args

def collectExprList (st : AState) (acc : ApiMap) : List PExpr → ApiMap
  | [] => acc
  | e :: rest => collectExprList st (collectExpr st acc e) rest

end

mutual

/-- `APICallCollector` traversal over statements; for `FunctionDef` the AST
field order is name, args, body, decorator_list, so the body is walked
before the decorators. -/
def collectStmt (st : AState) (acc : ApiMap) : PStmt → ApiMap
  | .importStmt nid _ => collectNode st acc nid
  | .assign nid ts v => collectExpr st (collectExprList st (collectNode st acc nid) ts) v
  | .exprStmt nid v => collectExpr st (collectNode st acc nid) v
  | .ret nid none => collectNode st acc nid
  | .ret nid (some v) => collectExpr st (collectNode st acc nid) v
  | .functionDef nid _ _ decs body =>
    collectExprList st (collectStmtList st (collectNode st acc nid) body) decs

def collectStmtList (st : AState) (acc : ApiMap) : List PStmt → ApiMap
  | [] => acc
  | s :: rest => collectStmtList st (collectStmt st acc s) rest

end

/-- `collector.collect_api_calls(parsed_ast)` over a module. -/
def collectModule (st : AState) (m : PModule) : ApiMap :=
  collectStmtList st (collectNode st [] m.nid) m.body

/-- `ParsedCode`: parsed AST together with its chained symbol table. -/
structure ParsedCode where
  parsed_ast : PModule
  symbol_table : CST

/-- `parse_code`: parsing and symtable construction are external; given
their outputs, the module-level chained table uses the module table as both
local and global. -/
def parse_code (ast : PModule) (table : ScopeT) : ParsedCode :=
  ⟨ast, ⟨table, table⟩⟩

/-- `get_client_calls`: run type inference over the parsed module, then
collect the annotated tree. -/
def get_client_calls (fuel : Nat) (ast : PModule) (table : ScopeT) :
    Except AErr ApiMap :=
  let parsed := parse_code ast table
  match bindTypesModule fuel parsed.symbol_table parsed.parsed_ast initState with
  | .error err => .error err
  | .ok st => .ok (collectModule st parsed.parsed_ast)

/-- `AppViewTransformer._is_chalice_view`: some decorator is a call whose
target is an attribute access named exactly `route`, with at least one
positional argument. -/
def isChaliceView (decorators : List PExpr) : Bool :=
  decorators.any fun d =>
    match d with
    | .call _ (.attribute _ _ attr) dargs => attr = "route" && !dargs.isEmpty
    | _ => false

/-- The synthetic statement of `AppViewTransformer._auto_invoke_view`: a bare
zero-argument call of the view function (fresh node ids from `base`). -/
def autoInvoke (base : Nat) (fname : String) : PStmt :=
  .exprStmt base (.call (base + 1) (.name (base + 2) fname) [])

/-- `AppViewTransformer.visit` over a statement list: every chalice-view
`FunctionDef` is replaced by itself followed by the synthetic call;
`visit_FunctionDef` does not descend into function bodies, and no other
statement kind contains statements. -/
def transformBody : Nat → List PStmt → List PStmt
  | _, [] => []
  | base, s :: rest =>
    match s with
    | .functionDef _ name _ decs _ =>
      if isChaliceView decs then
        s :: autoInvoke base name :: transformBody (base + 3) rest
      else
        s :: transformBody base rest
    | _ => s :: transformBody base rest

mutual

def PExpr.maxNid : PExpr → Nat
  | .name n _ => n
  | .str n _ => n
  | .attribute n b _ => max n b.maxNid
  | .call n f args => max (max n f.maxNid) (maxNidExprList args)

def maxNidExprList : List PExpr → Nat
  | [] => 0
  | e :: rest => max e.maxNid (maxNidExprList rest)

end

mutual

def PStmt.maxNid : PStmt → Nat
  | .importStmt n _ => n
  | .assign n ts v => max (max n (maxNidExprList ts)) v.maxNid
  | .exprStmt n v => max n v.maxNid
  | .ret n none => n
  | .ret n (some v) => max n v.maxNid
  | .functionDef n _ _ decs body => max (max n (maxNidExprList decs)) (maxNidStmtList body)

def maxNidStmtList : List PStmt → Nat
  | [] => 0
  | s :: rest => max s.maxNid (maxNidStmtList rest)

end

def PModule.maxNid (m : PModule) : Nat := max m.nid (maxNidStmtList m.body)

/-- The transformed module of `get_client_calls_for_app`: synthetic nodes
get ids above every existing id, modeling that `_auto_invoke_view` builds
fresh node objects. -/
def appViewTransformModule (m : PModule) : PModule :=
  ⟨m.nid, transformBody (m.maxNid + 1) m.body⟩

/-- `get_client_calls_for_app`: apply `AppViewTransformer` to the parsed
tree (the symbol table is the one built from the untransformed source),
then infer and collect as `get_client_calls` does. -/
def get_client_calls_for_app (fuel : Nat) (ast : PModule) (table : ScopeT) :
    Except AErr ApiMap :=
  let parsed := parse_code ast table
  let tast := appViewTransformModule parsed.parsed_ast
  match bindTypesModule fuel parsed.symbol_table tast initState with
  | .error err => .error err
  | .ok st => .ok (collectModule st tast)

/-!
## Concrete programs

Each program below is the AST and symtable of a small Python source, built
exactly as `ast.parse` and `symtable.symtable` produce them (node ids are
arbitrary distinct numbers standing for object identities; the per-symbol
`is_global()` flags match CPython: every module-level symbol is global,
function parameters are local, and names a function only reads are
global references).
-/

/-- AST of `import boto3; def make(): return boto3.client("s3");
x = make(); x.put_object()`. -/
def P1 : PModule :=
  ⟨0, [
    .importStmt 1 [("boto3", none)],
    .functionDef 2 "make" [] []
      [.ret 3 (some (.call 4 (.attribute 5 (.name 6 "boto3") "client") [.str 7 "s3"]))],
    .assign 8 [.name 9 "x"] (.call 10 (.name 11 "make") []),
    .exprStmt 12 (.call 13 (.attribute 14 (.name 15 "x") "put_object") [])
  ]⟩

/-- Symtable of `P1`. -/
def T1 : ScopeT :=
  .mk 100 "top" [⟨"boto3", true⟩, ⟨"make", true⟩, ⟨"x", true⟩]
    [.mk 101 "make" [⟨"boto3", true⟩] []]

/-- AST of `import boto3; name = "s3"; client = boto3.client(name);
client.get_object()`. -/
def P2 : PModule :=
  ⟨0, [
    .importStmt 1 [("boto3", none)],
    .assign 2 [.name 3 "name"] (.str 4 "s3"),
    .assign 5 [.name 6 "client"]
      (.call 7 (.attribute 8 (.name 9 "boto3") "client") [.name 10 "name"]),
    .exprStmt 11 (.call 12 (.attribute 13 (.name 14 "client") "get_object") [])
  ]⟩

/-- Symtable of `P2`. -/
def T2 : ScopeT :=
  .mk 100 "top" [⟨"boto3", true⟩, ⟨"name", true⟩, ⟨"client", true⟩] []

/-- AST of `import boto3; def make(name): return boto3.client(name);
x = make("s3"); x.get_object()` — the service name reaches the factory
only as a function parameter, never as a resolvable literal. -/
def P3 : PModule :=
  ⟨0, [
    .importStmt 1 [("boto3", none)],
    .functionDef 2 "make" ["name"] []
      [.ret 3 (some (.call 4 (.attribute 5 (.name 6 "boto3") "client") [.name 7 "name"]))],
    .assign 8 [.name 9 "x"] (.call 10 (.name 11 "make") [.str 12 "s3"]),
    .exprStmt 13 (.call 14 (.attribute 15 (.name 16 "x") "get_object") [])
  ]⟩

/-- Symtable of `P3`. -/
def T3 : ScopeT :=
  .mk 100 "top" [⟨"boto3", true⟩, ⟨"make", true⟩, ⟨"x", true⟩]
    [.mk 101 "make" [⟨"name", false⟩, ⟨"boto3", true⟩] []]

/-- AST of `import boto3; s3 = boto3.client("s3");
def f(): return s3.get_object(); x = f()` — calling `f` gives the call
node `f()` (node 15) the terminal invocation type through the
`FunctionType` branch, although its callee node (node 16) never has a
`Boto3ClientMethodType`. -/
def P4 : PModule :=
  ⟨0, [
    .importStmt 1 [("boto3", none)],
    .assign 2 [.name 3 "s3"]
      (.call 4 (.attribute 5 (.name 6 "boto3") "client") [.str 7 "s3"]),
    .functionDef 8 "f" [] []
      [.ret 9 (some (.call 10 (.attribute 11 (.name 12 "s3") "get_object") []))],
    .assign 13 [.name 14 "x"] (.call 15 (.name 16 "f") [])
  ]⟩

/-- Symtable of `P4`. -/
def T4 : ScopeT :=
  .mk 100 "top" [⟨"boto3", true⟩, ⟨"s3", true⟩, ⟨"f", true⟩, ⟨"x", true⟩]
    [.mk 101 "f" [⟨"s3", true⟩] []]

/-- AST of `import boto3; @app.route("/")\ndef view():
boto3.client("s3").get_object()` — a chalice view that is never called
explicitly. -/
def P5 : PModule :=
  ⟨0, [
    .importStmt 1 [("boto3", none)],
    .functionDef 6 "view" []
      [.call 2 (.attribute 3 (.name 4 "app") "route") [.str 5 "/"]]
      [.exprStmt 7 (.call 8 (.attribute 9
        (.call 10 (.attribute 11 (.name 12 "boto3") "client") [.str 13 "s3"])
        "get_object") [])]
  ]⟩

/-- Symtable of `P5`. -/
def T5 : ScopeT :=
  .mk 100 "top" [⟨"boto3", true⟩, ⟨"app", true⟩, ⟨"view", true⟩]
    [.mk 101 "view" [⟨"boto3", true⟩] []]

/-- AST of `import boto3; def f(): return boto3.client("s3"); return
boto3.client("sqs"); x = f(); x.query()` — two return statements in one
function body. -/
def P7 : PModule :=
  ⟨0, [
    .importStmt 1 [("boto3", none)],
    .functionDef 2 "f" [] []
      [.ret 3 (some (.call 4 (.attribute 5 (.name 6 "boto3") "client") [.str 7 "s3"])),
       .ret 8 (some (.call 9 (.attribute 10 (.name 11 "boto3") "client") [.str 12 "sqs"]))],
    .assign 13 [.name 14 "x"] (.call 15 (.name 16 "f") []),
    .exprStmt 17 (.call 18 (.attribute 19 (.name 20 "x") "query") [])
  ]⟩

/-- Symtable of `P7`. -/
def T7 : ScopeT :=
  .mk 100 "top" [⟨"boto3", true⟩, ⟨"f", true⟩, ⟨"x", true⟩]
    [.mk 101 "f" [⟨"boto3", true⟩] []]

/-- AST of `import boto3 as b` — the alias binds `b`, so the module
symtable declares only `b`. -/
def P9 : PModule := ⟨0, [.importStmt 1 [("boto3", some "b")]]⟩

/-- Symtable of `P9`: only the asname `b` is a declared symbol. -/
def T9 : ScopeT := .mk 100 "top" [⟨"b", true⟩] []

/-- AST of `import boto3; x = boto3.client("s3"); x = foo();
x.get_object()` — `x` is re-bound to a call the analysis cannot type. -/
def P10 : PModule :=
  ⟨0, [
    .importStmt 1 [("boto3", none)],
    .assign 2 [.name 3 "x"]
      (.call 4 (.attribute 5 (.name 6 "boto3") "client") [.str 7 "s3"]),
    .assign 8 [.name 9 "x"] (.call 10 (.name 11 "foo") []),
    .exprStmt 12 (.call 13 (.attribute 14 (.name 15 "x") "get_object") [])
  ]⟩

/-- Symtable of `P10`: `foo` is referenced but never bound, hence a global
reference that resolves in the module table with no type. -/
def T10 : ScopeT :=
  .mk 100 "top" [⟨"boto3", true⟩, ⟨"x", true⟩, ⟨"foo", true⟩] []

/-!
## Helper lemmas
-/

theorem inferExpr_name_ok {fuel : Nat} {tbl : CST} {ns tnid : Nat} {t : String}
    {st st1 : AState} (h : inferExpr fuel tbl ns (.name tnid t) st = .ok st1) :
    ∃ sym, tbl.localTable.lookup t = some sym := by
  cases fuel with
  | zero => simp [inferExpr] at h
  | succ fuel =>
    simp only [inferExpr] at h
    cases hg : tbl.get_inferred_type st t with
    | error err => rw [hg] at h; simp at h
    | ok ty =>
      unfold CST.get_inferred_type at hg
      cases hl : tbl.localTable.lookup t with
      | none => rw [hl] at hg; simp at hg
      | some sym => exact ⟨sym, rfl⟩

theorem inferExprList_name_lookup {tbl : CST} {ns : Nat} :
    ∀ {es : List PExpr} {fuel : Nat} {st st1 : AState},
      inferExprList fuel tbl ns es st = .ok st1 →
      ∀ tnid t, PExpr.name tnid t ∈ es → ∃ sym, tbl.localTable.lookup t = some sym := by
  intro es
  induction es with
  | nil => intro fuel st st1 h tnid t hmem; simp at hmem
  | cons e rest ih =>
    intro fuel st st1 h tnid t hmem
    cases fuel with
    | zero => simp [inferExprList] at h
    | succ fuel =>
      simp only [inferExprList] at h
      cases he : inferExpr fuel tbl ns e st with
      | error err => rw [he] at h; simp at h
      | ok stm =>
        rw [he] at h
        rcases List.mem_cons.mp hmem with heq | hrest
        · subst heq; exact inferExpr_name_ok he
        · exact ih h tnid t hrest

theorem assignTargets_preserves_none {tbl : CST} :
    ∀ {targets : List PExpr} {st st2 : AState},
      assignTargets tbl none targets st = .ok st2 →
      (∀ sid x, st.symTy sid x = none → st2.symTy sid x = none) ∧
      (∀ n, st.nodeTy n = none → st2.nodeTy n = none) := by
  intro targets
  induction targets with
  | nil =>
    intro st st2 h
    simp only [assignTargets] at h
    cases h
    exact ⟨fun _ _ hs => hs, fun _ hn => hn⟩
  | cons t rest ih =>
    intro st st2 h
    cases t with
    | name tnid tid =>
      simp only [assignTargets] at h
      cases hset : tbl.set_inferred_type st tid none with
      | error err => rw [hset] at h; simp at h
      | ok st1 =>
        rw [hset] at h
        unfold CST.set_inferred_type at hset
        cases hl : tbl.localTable.lookup tid with
        | none => rw [hl] at hset; simp at hset
        | some sym =>
          rw [hl] at hset
          cases hset
          have hr := ih h
          refine ⟨fun sid x hs => ?_, fun n hn => ?_⟩
          · refine hr.1 sid x ?_
            simp only [setSym]
            split <;> simp [hs]
          · refine hr.2 n ?_
            simp only [setNode]
            split <;> simp [hn]
    | str n v => exact ih (by simpa [assignTargets] using h)
    | «attribute» n b a => exact ih (by simpa [assignTargets] using h)
    | call n f args => exact ih (by simpa [assignTargets] using h)

theorem assignTargets_none_erases {tbl : CST} :
    ∀ {targets : List PExpr} {st st2 : AState},
      assignTargets tbl none targets st = .ok st2 →
      ∀ tnid t, PExpr.name tnid t ∈ targets →
        st2.symTy tbl.localTable.sid t = none ∧ st2.nodeTy tnid = none := by
  intro targets
  induction targets with
  | nil => intro st st2 h tnid t hmem; simp at hmem
  | cons tg rest ih =>
    intro st st2 h tnid t hmem
    rcases List.mem_cons.mp hmem with heq | hrest
    · subst heq
      simp only [assignTargets] at h
      cases hset : tbl.set_inferred_type st t none with
      | error err => rw [hset] at h; simp at h
      | ok st1 =>
        rw [hset] at h
        unfold CST.set_inferred_type at hset
        cases hl : tbl.localTable.lookup t with
        | none => rw [hl] at hset; simp at hset
        | some sym =>
          rw [hl] at hset
          cases hset
          have hp := assignTargets_preserves_none h
          constructor
          · exact hp.1 _ _ (by simp [setSym])
          · exact hp.2 _ (by simp [setNode])
    · cases tg with
      | name tnid2 tid2 =>
        simp only [assignTargets] at h
        cases hset : tbl.set_inferred_type st tid2 none with
        | error err => rw [hset] at h; simp at h
        | ok st1 =>
          rw [hset] at h
          exact ih h tnid t hrest
      | str n v => exact ih (by simpa [assignTargets] using h) tnid t hrest
      | «attribute» n b a => exact ih (by simpa [assignTargets] using h) tnid t hrest
      | call n f args => exact ih (by simpa [assignTargets] using h) tnid t hrest

theorem assignTargets_total (tbl : CST) (rhs : Option Ty) :
    ∀ (targets : List PExpr) (st : AState),
      (∀ tnid t, PExpr.name tnid t ∈ targets → ∃ sym, tbl.localTable.lookup t = some sym) →
      ∃ st2, assignTargets tbl rhs targets st = .ok st2 := by
  intro targets
  induction targets with
  | nil => intro st _; exact ⟨st, rfl⟩
  | cons tg rest ih =>
    intro st hlk
    cases tg with
    | name tnid tid =>
      obtain ⟨sym, hsym⟩ := hlk tnid tid (List.mem_cons_self _ _)
      have hset : tbl.set_inferred_type st tid rhs =
          .ok { st with symTy := setSym st.symTy tbl.localTable.sid tid rhs } := by
        unfold CST.set_inferred_type
        rw [hsym]
      obtain ⟨st2, h2⟩ := ih { { st with symTy := setSym st.symTy tbl.localTable.sid tid rhs } with
        nodeTy := setNode st.nodeTy tnid rhs }
        (fun a b hm => hlk a b (List.mem_cons_of_mem _ hm))
      exact ⟨st2, by simp only [assignTargets, hset]; exact h2⟩
    | str n v =>
      obtain ⟨st2, h2⟩ := ih st (fun a b hm => hlk a b (List.mem_cons_of_mem _ hm))
      exact ⟨st2, by simpa [assignTargets] using h2⟩
    | «attribute» n b a =>
      obtain ⟨st2, h2⟩ := ih st (fun a b hm => hlk a b (List.mem_cons_of_mem _ hm))
      exact ⟨st2, by simpa [assignTargets] using h2⟩
    | call n f args =>
      obtain ⟨st2, h2⟩ := ih st (fun a b hm => hlk a b (List.mem_cons_of_mem _ hm))
      exact ⟨st2, by simpa [assignTargets] using h2⟩

theorem lookup_ast_node_local {t : CST} {st : AState} {nm : String} {d : PStmt}
    (h : t.lookup_ast_node st nm = .ok d) :
    ∃ sym, t.localTable.lookup nm = some sym := by
  unfold CST.lookup_ast_node at h
  cases hl : t.localTable.lookup nm with
  | none => rw [hl] at h; simp at h
  | some sym => exact ⟨sym, rfl⟩

/-- One-step unfolding: a string literal node has no visitor and is left
unannotated. -/
theorem inferExpr_str (fuel : Nat) (tbl : CST) (ns n : Nat) (v : String)
    (st : AState) : inferExpr (fuel + 1) tbl ns (.str n v) st = .ok st := rfl

/-- One-step unfolding of `visit_Assign`. -/
theorem inferStmt_assign (fuel : Nat) (tbl : CST) (ns nid : Nat)
    (targets : List PExpr) (value : PExpr) (st : AState) :
    inferStmt (fuel + 1) tbl ns (.assign nid targets value) st =
      match inferExprList fuel tbl ns targets st with
      | .error err => .error err
      | .ok st1 =>
        match inferExpr fuel tbl ns value st1 with
        | .error err => .error err
        | .ok st2 =>
          match st2.nodeTy value.nid with
          | some rhs => assignTargets tbl (some rhs) targets st2
          | none =>
            match value with
            | .str vnid v =>
              assignTargets tbl (some (.stringLiteral v)) targets
                { st2 with nodeTy := setNode st2.nodeTy vnid (some (.stringLiteral v)) }
            | _ => assignTargets tbl none targets st2 := rfl

/-- One-step unfolding of `visit_Return` with a returned expression. -/
theorem inferStmt_ret (fuel : Nat) (tbl : CST) (ns nid : Nat) (v : PExpr)
    (st : AState) :
    inferStmt (fuel + 1) tbl ns (.ret nid (some v)) st =
      match inferExpr fuel tbl ns v st with
      | .error err => .error err
      | .ok st1 =>
        match st1.nodeTy v.nid with
        | none => .ok st1
        | some ty =>
          .ok { st1 with
                nodeTy := setNode (setNode st1.nodeTy nid (some ty)) ns
                  (some (.functionType ty)) } := rfl

/-- One-step unfolding of `visit_Call`. -/
theorem inferExpr_call (fuel : Nat) (tbl : CST) (ns nid : Nat) (func : PExpr)
    (args : List PExpr) (st : AState) :
    inferExpr (fuel + 1) tbl ns (.call nid func args) st =
      match inferExpr fuel tbl ns func st with
      | .error err => .error err
      | .ok st1 =>
        match inferExprList fuel tbl ns args st1 with
        | .error err => .error err
        | .ok st2 =>
          match st2.nodeTy func.nid with
          | some .boto3CreateClient =>
            match args with
            | [] => .ok st2
            | a :: _ =>
              match a with
              | .str _ v =>
                .ok { st2 with nodeTy := setNode st2.nodeTy nid (some (.boto3Client v)) }
              | _ =>
                match st2.nodeTy a.nid with
                | some (.stringLiteral v) =>
                  .ok { st2 with nodeTy := setNode st2.nodeTy nid (some (.boto3Client v)) }
                | _ => .ok st2
          | some (.boto3ClientMethod s m) =>
            .ok { st2 with nodeTy := setNode st2.nodeTy nid (some (.boto3ClientMethodCall s m)) }
          | some (.boto3ClientMethodCall s m) =>
            .ok { st2 with nodeTy := setNode st2.nodeTy nid (some (.boto3ClientMethodCall s m)) }
          | some (.functionType rt) =>
            .ok { st2 with nodeTy := setNode st2.nodeTy nid (some rt) }
          | _ =>
            match func with
            | .name _ fid =>
              if tbl.has_ast_node st2 fid then
                inferFunctionCall fuel tbl nid fid args st2
              else
                .ok st2
            | _ => .ok st2 := rfl

/-- One-step unfolding of `visit_Name`. -/
theorem inferExpr_name (fuel : Nat) (tbl : CST) (ns nid : Nat) (id : String)
    (st : AState) :
    inferExpr (fuel + 1) tbl ns (.name nid id) st =
      match tbl.get_inferred_type st id with
      | .error err => .error err
      | .ok ty => .ok { st with nodeTy := setNode st.nodeTy nid ty } := rfl

/-- One-step unfolding of `visit_Attribute`. -/
theorem inferExpr_attribute (fuel : Nat) (tbl : CST) (ns nid : Nat)
    (value : PExpr) (attr : String) (st : AState) :
    inferExpr (fuel + 1) tbl ns (.attribute nid value attr) st =
      match inferExpr fuel tbl ns value st with
      | .error err => .error err
      | .ok st1 =>
        match st1.nodeTy value.nid with
        | none => .ok st1
        | some .boto3Module =>
          if attr = CREATE_CLIENT then
            .ok { st1 with nodeTy := setNode st1.nodeTy nid (some .boto3CreateClient) }
          else
            .ok st1
        | some (.boto3Client s) =>
          .ok { st1 with nodeTy := setNode st1.nodeTy nid (some (.boto3ClientMethod s attr)) }
        | some _ => .ok st1 := rfl

/-- One-step unfolding of `visit_Import`. -/
theorem inferStmt_import (fuel : Nat) (tbl : CST) (ns nid : Nat)
    (names : List (String × Option String)) (st : AState) :
    inferStmt (fuel + 1) tbl ns (.importStmt nid names) st =
      processImports tbl names st := rfl

/-- One-step unfolding of an expression statement. -/
theorem inferStmt_exprStmt (fuel : Nat) (tbl : CST) (ns nid : Nat) (v : PExpr)
    (st : AState) :
    inferStmt (fuel + 1) tbl ns (.exprStmt nid v) st =
      inferExpr fuel tbl ns v st := rfl

/-- One-step unfolding of a bare `return`. -/
theorem inferStmt_ret_none (fuel : Nat) (tbl : CST) (ns nid : Nat)
    (st : AState) :
    inferStmt (fuel + 1) tbl ns (.ret nid none) st = .ok st := rfl

/-- One-step unfolding of `visit_FunctionDef`. -/
theorem inferStmt_functionDef (fuel : Nat) (tbl : CST) (ns nid : Nat)
    (name : String) (ps : List String) (decs : List PExpr)
    (body : List PStmt) (st : AState) :
    inferStmt (fuel + 1) tbl ns (.functionDef nid name ps decs body) st =
      if name = tbl.localTable.sname then
        inferBody fuel tbl ns body st
      else
        tbl.register_ast_node st name (.functionDef nid name ps decs body) := rfl

theorem inferExprList_nil (fuel : Nat) (tbl : CST) (ns : Nat) (st : AState) :
    inferExprList (fuel + 1) tbl ns [] st = .ok st := rfl

theorem inferExprList_cons (fuel : Nat) (tbl : CST) (ns : Nat) (e : PExpr)
    (rest : List PExpr) (st : AState) :
    inferExprList (fuel + 1) tbl ns (e :: rest) st =
      match inferExpr fuel tbl ns e st with
      | .error err => .error err
      | .ok st1 => inferExprList fuel tbl ns rest st1 := rfl

theorem inferBody_nil (fuel : Nat) (tbl : CST) (ns : Nat) (st : AState) :
    inferBody (fuel + 1) tbl ns [] st = .ok st := rfl

theorem inferBody_cons (fuel : Nat) (tbl : CST) (ns : Nat) (s : PStmt)
    (rest : List PStmt) (st : AState) :
    inferBody (fuel + 1) tbl ns (s :: rest) st =
      match inferStmt fuel tbl ns s st with
      | .error err => .error err
      | .ok st1 => inferBody fuel tbl ns rest st1 := rfl

theorem bindTypesDef_succ (fuel : Nat) (tbl : CST) (d : PStmt) (st : AState) :
    bindTypesDef (fuel + 1) tbl d st = inferStmt fuel tbl d.nid d st := rfl

theorem inferExpr_zero (tbl : CST) (ns : Nat) (e : PExpr) (st : AState) :
    inferExpr 0 tbl ns e st = .error .outOfFuel := rfl

theorem inferExprList_zero (tbl : CST) (ns : Nat) (es : List PExpr)
    (st : AState) : inferExprList 0 tbl ns es st = .error .outOfFuel := rfl

theorem inferStmt_zero (tbl : CST) (ns : Nat) (s : PStmt) (st : AState) :
    inferStmt 0 tbl ns s st = .error .outOfFuel := rfl

theorem inferBody_zero (tbl : CST) (ns : Nat) (ss : List PStmt) (st : AState) :
    inferBody 0 tbl ns ss st = .error .outOfFuel := rfl

theorem inferFunctionCall_zero (tbl : CST) (nid : Nat) (fname : String)
    (args : List PExpr) (st : AState) :
    inferFunctionCall 0 tbl nid fname args st = .error .outOfFuel := rfl

theorem bindTypesDef_zero (tbl : CST) (d : PStmt) (st : AState) :
    bindTypesDef 0 tbl d st = .error .outOfFuel := rfl

/-- One-step unfolding of `_infer_function_call`. -/
theorem inferFunctionCall_succ (fuel : Nat) (tbl : CST) (nid : Nat)
    (fname : String) (args : List PExpr) (st : AState) :
    inferFunctionCall (fuel + 1) tbl nid fname args st =
      match tbl.lookup_sub_namespace fname with
      | .error err => .error err
      | .ok sub =>
        match tbl.lookup_ast_node st fname with
        | .error err => .error err
        | .ok dnode =>
          match mapFunctionParams sub args dnode.params st with
          | .error err => .error err
          | .ok st1 =>
            match bindTypesDef fuel sub dnode st1 with
            | .error err => .error err
            | .ok st2 =>
              match tbl.set_inferred_type st2 fname (st2.nodeTy dnode.nid) with
              | .error err => .error err
              | .ok st3 =>
                match st2.nodeTy dnode.nid with
                | some (.functionType rt) =>
                  .ok { st3 with nodeTy := setNode st3.nodeTy nid (some rt) }
                | _ => .ok st3 := rfl

/-!
## Claim theorems
-/

/-- C6: scope-table lookup with one-level global fallback.  For a name
declared in the local scope, `get_inferred_type` returns the locally
recorded type when the symbol is not marked global; when it is marked
global, it returns the type recorded in the global scope, and returns no
type (not an error) when the name is absent from the global scope — it
never consults any further scope. -/
theorem claim_C6 (t : CST) (st : AState) (nm : String) (sym : SymInfo)
    (h : t.localTable.lookup nm = some sym) :
    (sym.isGlobal = false →
      t.get_inferred_type st nm = .ok (st.symTy t.localTable.sid nm)) ∧
    (sym.isGlobal = true → ∀ sym2, t.globalTable.lookup nm = some sym2 →
      t.get_inferred_type st nm = .ok (st.symTy t.globalTable.sid nm)) ∧
    (sym.isGlobal = true → t.globalTable.lookup nm = none →
      t.get_inferred_type st nm = .ok none) := by
  refine ⟨fun hng => ?_, fun hg sym2 hgl => ?_, fun hg hgl => ?_⟩
  · simp [CST.get_inferred_type, h, hng]
  · simp [CST.get_inferred_type, h, hg, hgl]
  · simp [CST.get_inferred_type, h, hg, hgl]

/-- Closed instance of C6: a function-scope symbol marked global whose name
is absent from the module table resolves to "no type" rather than an
error. -/
theorem claim_C6_witness :
    CST.get_inferred_type ⟨.mk 1 "f" [⟨"g", true⟩] [], .mk 0 "top" [] []⟩
      initState "g" = .ok none :=
  (claim_C6 ⟨.mk 1 "f" [⟨"g", true⟩] [], .mk 0 "top" [] []⟩ initState "g"
    ⟨"g", true⟩ rfl).2.2 rfl rfl

/-- C8: determinism.  The whole pipeline (inference then collection) is a
pure function of the parsed input; two runs on the same immutable input
produce the same mapping. -/
theorem claim_C8 (fuel : Nat) (ast : PModule) (table : ScopeT) :
    get_client_calls fuel ast table = get_client_calls fuel ast table := rfl

/-- C9: `import boto3 as b` declares only `b`, yet `visit_Import` tries to
set an inferred type for the name `boto3`; the symbol-table lookup raises
`KeyError` and the whole analysis aborts instead of continuing
best-effort. -/
theorem claim_C9 : get_client_calls 8 P9 T9 = .error (.keyError "boto3") := rfl

/-- C7: single-return, last-write-wins.  A return statement whose returned
expression has an inferred type overwrites the enclosing namespace node
with a `FunctionType` wrapping that type, regardless of any previously
recorded function type (so with several returns the most recently visited
one wins); concretely, for `P7` (two returns, "s3" first then "sqs") the
recorded function type is the second one and the mapping follows it. -/
theorem claim_C7 :
    (∀ (fuel : Nat) (tbl : CST) (ns nid : Nat) (v : PExpr) (st st1 : AState) (ty : Ty),
      inferExpr fuel tbl ns v st = .ok st1 →
      st1.nodeTy v.nid = some ty →
      inferStmt (fuel + 1) tbl ns (.ret nid (some v)) st =
        .ok { st1 with
              nodeTy := setNode (setNode st1.nodeTy nid (some ty)) ns
                (some (.functionType ty)) } ∧
      setNode (setNode st1.nodeTy nid (some ty)) ns (some (.functionType ty)) ns =
        some (.functionType ty)) ∧
    get_client_calls 32 P7 T7 = .ok [("sqs", ["query"])] ∧
    (bindTypesModule 32 ⟨T7, T7⟩ P7 initState).map (fun s => s.symTy 100 "f") =
      .ok (some (.functionType (.boto3Client "sqs"))) := by
  refine ⟨?_, ?_, ?_⟩
  · intro fuel tbl ns nid v st st1 ty hv hty
    constructor
    · rw [inferStmt_ret, hv]
      simp only [hty]
    · simp [setNode]
  · simp [get_client_calls, parse_code, bindTypesModule, inferBody, inferStmt,
      inferExpr, inferExprList, inferFunctionCall, bindTypesDef, processImports,
      assignTargets, mapFunctionParams, CST.get_inferred_type,
      CST.set_inferred_type, CST.lookup_sub_namespace, CST.register_ast_node,
      CST.lookup_ast_node, CST.has_ast_node, ScopeT.lookup, ScopeT.sid,
      ScopeT.sname, ScopeT.symbols, ScopeT.children, setNode, setSym, setSymNode,
      initState, collectModule, collectStmtList, collectStmt, collectExprList,
      collectExpr, collectNode, addCall, PExpr.nid, PStmt.nid, PStmt.params,
      SDK_PACKAGE, CREATE_CLIENT, P7, T7]
  · simp [Except.map, bindTypesModule, inferBody, inferStmt,
      inferExpr, inferExprList, inferFunctionCall, bindTypesDef, processImports,
      assignTargets, mapFunctionParams, CST.get_inferred_type,
      CST.set_inferred_type, CST.lookup_sub_namespace, CST.register_ast_node,
      CST.lookup_ast_node, CST.has_ast_node, ScopeT.lookup, ScopeT.sid,
      ScopeT.sname, ScopeT.symbols, ScopeT.children, setNode, setSym, setSymNode,
      initState, PExpr.nid, PStmt.nid, PStmt.params,
      SDK_PACKAGE, CREATE_CLIENT, P7, T7]

/-- Closed instance of C7: a return whose expression is typed
`StringLiteral("s3")` overwrites a previously recorded sqs signature on
the namespace node (node 2). -/
theorem claim_C7_witness :
    inferStmt 2 ⟨T7, T7⟩ 2 (.ret 3 (some (.str 7 "s3")))
      ⟨setNode (setNode initState.nodeTy 7 (some (.stringLiteral "s3"))) 2
         (some (.functionType (.boto3Client "sqs"))),
       initState.symTy, initState.symNode⟩ =
      .ok { (⟨setNode (setNode initState.nodeTy 7 (some (.stringLiteral "s3"))) 2
              (some (.functionType (.boto3Client "sqs"))),
             initState.symTy, initState.symNode⟩ : AState) with
            nodeTy := setNode (setNode (setNode (setNode initState.nodeTy 7
                (some (.stringLiteral "s3"))) 2
                (some (.functionType (.boto3Client "sqs")))) 3
                (some (.stringLiteral "s3"))) 2
              (some (.functionType (.stringLiteral "s3"))) } ∧
    setNode (setNode (setNode (setNode initState.nodeTy 7
        (some (.stringLiteral "s3"))) 2
        (some (.functionType (.boto3Client "sqs")))) 3
        (some (.stringLiteral "s3"))) 2
      (some (.functionType (.stringLiteral "s3"))) 2 =
      some (.functionType (.stringLiteral "s3")) :=
  claim_C7.1 1 ⟨T7, T7⟩ 2 3 (.str 7 "s3")
    ⟨setNode (setNode initState.nodeTy 7 (some (.stringLiteral "s3"))) 2
       (some (.functionType (.boto3Client "sqs"))),
     initState.symTy, initState.symNode⟩
    _ (.stringLiteral "s3") rfl (by simp [setNode, PExpr.nid])

/-- C2: literal-through-variable flow.  Concretely, for `P2`
(`name = "s3"; client = boto3.client(name); client.get_object()`) the
result is exactly the mapping of the direct-literal program; in general,
assigning a string literal whose node has no inferred type to a simple
name records the `StringLiteral` pseudo-type on that name in the current
scope (and on the target and value nodes). -/
theorem claim_C2 :
    get_client_calls 32 P2 T2 = .ok [("s3", ["get_object"])] ∧
    (∀ (fuel : Nat) (tbl : CST) (ns nid tnid vnid : Nat) (t v : String)
      (st st1 : AState),
      inferExprList fuel tbl ns [.name tnid t] st = .ok st1 →
      st1.nodeTy vnid = none →
      ∃ st2, inferStmt (fuel + 1) tbl ns
          (.assign nid [.name tnid t] (.str vnid v)) st = .ok st2 ∧
        st2.symTy tbl.localTable.sid t = some (.stringLiteral v) ∧
        st2.nodeTy tnid = some (.stringLiteral v)) := by
  constructor
  · simp [get_client_calls, parse_code, bindTypesModule, inferBody, inferStmt,
      inferExpr, inferExprList, inferFunctionCall, bindTypesDef, processImports,
      assignTargets, mapFunctionParams, CST.get_inferred_type,
      CST.set_inferred_type, CST.lookup_sub_namespace, CST.register_ast_node,
      CST.lookup_ast_node, CST.has_ast_node, ScopeT.lookup, ScopeT.sid,
      ScopeT.sname, ScopeT.symbols, ScopeT.children, setNode, setSym, setSymNode,
      initState, collectModule, collectStmtList, collectStmt, collectExprList,
      collectExpr, collectNode, addCall, PExpr.nid, PStmt.nid, PStmt.params,
      SDK_PACKAGE, CREATE_CLIENT, P2, T2]
  · intro fuel tbl ns nid tnid vnid t v st st1 hL hnone
    obtain ⟨sym, hsym⟩ :=
      inferExprList_name_lookup hL tnid t (List.mem_cons_self _ _)
    cases fuel with
    | zero => simp [inferExprList] at hL
    | succ fuel =>
      refine ⟨⟨setNode (setNode st1.nodeTy vnid (some (.stringLiteral v))) tnid
          (some (.stringLiteral v)),
        setSym st1.symTy tbl.localTable.sid t (some (.stringLiteral v)),
        st1.symNode⟩, ?_, ?_, ?_⟩
      · simp only [inferStmt_assign, hL, inferExpr_str, PExpr.nid, hnone]
        simp only [assignTargets, CST.set_inferred_type, hsym]
      · simp [setSym]
      · simp [setNode]

/-- Closed instance of C2 (general part): assigning the literal "s3" to
the module-level name `name` of `P2` records `StringLiteral("s3")` for
it. -/
theorem claim_C2_witness :
    ∃ st2, inferStmt 3 ⟨T2, T2⟩ 0 (.assign 2 [.name 3 "name"] (.str 4 "s3"))
        initState = .ok st2 ∧
      st2.symTy (CST.mk T2 T2).localTable.sid "name" = some (.stringLiteral "s3") ∧
      st2.nodeTy 3 = some (.stringLiteral "s3") :=
  claim_C2.2 2 ⟨T2, T2⟩ 0 2 3 4 "name" "s3" initState
    ⟨setNode initState.nodeTy 3 none, initState.symTy, initState.symNode⟩
    rfl rfl

/-- C10: assignment erases stale types.  In general, an assignment whose
right-hand side has no inferred type and is not syntactically a string
literal overwrites every simple-name target with "no type" in the current
scope; concretely, re-binding the s3-client variable `x` of `P10` to the
untypeable `foo()` removes its type and the final mapping is empty. -/
theorem claim_C10 :
    (∀ (fuel : Nat) (tbl : CST) (ns nid : Nat) (targets : List PExpr)
      (v : PExpr) (st st1 st2 : AState),
      inferExprList fuel tbl ns targets st = .ok st1 →
      inferExpr fuel tbl ns v st1 = .ok st2 →
      st2.nodeTy v.nid = none →
      (∀ m w, v ≠ .str m w) →
      ∃ st3, inferStmt (fuel + 1) tbl ns (.assign nid targets v) st = .ok st3 ∧
        ∀ tnid t, PExpr.name tnid t ∈ targets →
          st3.symTy tbl.localTable.sid t = none ∧ st3.nodeTy tnid = none) ∧
    get_client_calls 32 P10 T10 = .ok [] ∧
    (bindTypesModule 32 ⟨T10, T10⟩ P10 initState).map (fun s => s.symTy 100 "x") =
      .ok none := by
  refine ⟨?_, ?_, ?_⟩
  · intro fuel tbl ns nid targets v st st1 st2 hL hv hnone hns
    have hlk : ∀ tnid t, PExpr.name tnid t ∈ targets →
        ∃ sym, tbl.localTable.lookup t = some sym :=
      fun tnid t hm => inferExprList_name_lookup hL tnid t hm
    obtain ⟨st3, h3⟩ :=
      assignTargets_total tbl none targets st2 hlk
    refine ⟨st3, ?_, ?_⟩
    · simp only [inferStmt_assign, hL, hv, hnone]
      cases v with
      | name a b => exact h3
      | str m w => exact absurd rfl (hns m w)
      | «attribute» a b c => exact h3
      | call a b c => exact h3
    · exact fun tnid t hm => assignTargets_none_erases h3 tnid t hm
  · simp [get_client_calls, parse_code, bindTypesModule, inferBody, inferStmt,
      inferExpr, inferExprList, inferFunctionCall, bindTypesDef, processImports,
      assignTargets, mapFunctionParams, CST.get_inferred_type,
      CST.set_inferred_type, CST.lookup_sub_namespace, CST.register_ast_node,
      CST.lookup_ast_node, CST.has_ast_node, ScopeT.lookup, ScopeT.sid,
      ScopeT.sname, ScopeT.symbols, ScopeT.children, setNode, setSym, setSymNode,
      initState, collectModule, collectStmtList, collectStmt, collectExprList,
      collectExpr, collectNode, addCall, PExpr.nid, PStmt.nid, PStmt.params,
      SDK_PACKAGE, CREATE_CLIENT, P10, T10]
  · simp [Except.map, bindTypesModule, inferBody, inferStmt,
      inferExpr, inferExprList, inferFunctionCall, bindTypesDef, processImports,
      assignTargets, mapFunctionParams, CST.get_inferred_type,
      CST.set_inferred_type, CST.lookup_sub_namespace, CST.register_ast_node,
      CST.lookup_ast_node, CST.has_ast_node, ScopeT.lookup, ScopeT.sid,
      ScopeT.sname, ScopeT.symbols, ScopeT.children, setNode, setSym, setSymNode,
      initState, PExpr.nid, PStmt.nid, PStmt.params,
      SDK_PACKAGE, CREATE_CLIENT, P10, T10]

/-- Closed instance of C10 (general part): the second assignment of `P10`
erases the type previously recorded for `x`. -/
theorem claim_C10_witness :
    ∃ st3, inferStmt 5 ⟨T10, T10⟩ 0
        (.assign 8 [.name 9 "x"] (.call 10 (.name 11 "foo") [])) initState =
        .ok st3 ∧
      ∀ tnid t, PExpr.name tnid t ∈ [PExpr.name 9 "x"] →
        st3.symTy (CST.mk T10 T10).localTable.sid t = none ∧
        st3.nodeTy tnid = none := by
  obtain ⟨st3, h1, h2⟩ :=
    claim_C10.1 4 ⟨T10, T10⟩ 0 8 [.name 9 "x"] (.call 10 (.name 11 "foo") [])
      initState ⟨setNode initState.nodeTy 9 none, initState.symTy, initState.symNode⟩
      ⟨setNode (setNode initState.nodeTy 9 none) 11 none, initState.symTy,
        initState.symNode⟩
      rfl rfl (by simp [setNode, PExpr.nid, initState])
      (fun m w h => PExpr.noConfusion h)
  exact ⟨st3, h1, h2⟩

/-- C3: client-factory call rule.  For a call whose callee node is typed
`Boto3CreateClientType` and whose first (service-name) argument is a direct
string literal, or a non-literal expression typed `StringLiteral`, the call
node is annotated `Boto3ClientType` of that literal value; when the first
argument is neither (a parameter or computed expression), the call node is
left unannotated, and concretely the parameter program `P3` produces an
empty mapping. -/
theorem claim_C3 :
    (∀ (fuel : Nat) (tbl : CST) (ns nid anid : Nat) (func : PExpr) (v : String)
      (rest : List PExpr) (st st1 st2 : AState),
      inferExpr fuel tbl ns func st = .ok st1 →
      inferExprList fuel tbl ns (.str anid v :: rest) st1 = .ok st2 →
      st2.nodeTy func.nid = some .boto3CreateClient →
      inferExpr (fuel + 1) tbl ns (.call nid func (.str anid v :: rest)) st =
        .ok { st2 with nodeTy := setNode st2.nodeTy nid (some (.boto3Client v)) }) ∧
    (∀ (fuel : Nat) (tbl : CST) (ns nid : Nat) (func a : PExpr) (v : String)
      (rest : List PExpr) (st st1 st2 : AState),
      inferExpr fuel tbl ns func st = .ok st1 →
      inferExprList fuel tbl ns (a :: rest) st1 = .ok st2 →
      st2.nodeTy func.nid = some .boto3CreateClient →
      (∀ m w, a ≠ .str m w) →
      st2.nodeTy a.nid = some (.stringLiteral v) →
      inferExpr (fuel + 1) tbl ns (.call nid func (a :: rest)) st =
        .ok { st2 with nodeTy := setNode st2.nodeTy nid (some (.boto3Client v)) }) ∧
    (∀ (fuel : Nat) (tbl : CST) (ns nid : Nat) (func a : PExpr)
      (rest : List PExpr) (st st1 st2 : AState),
      inferExpr fuel tbl ns func st = .ok st1 →
      inferExprList fuel tbl ns (a :: rest) st1 = .ok st2 →
      st2.nodeTy func.nid = some .boto3CreateClient →
      (∀ m w, a ≠ .str m w) →
      (∀ w, st2.nodeTy a.nid ≠ some (.stringLiteral w)) →
      inferExpr (fuel + 1) tbl ns (.call nid func (a :: rest)) st = .ok st2) ∧
    get_client_calls 32 P3 T3 = .ok [] := by
  refine ⟨?_, ?_, ?_, ?_⟩
  · intro fuel tbl ns nid anid func v rest st st1 st2 h1 h2 h3
    simp only [inferExpr_call, h1, h2, h3]
  · intro fuel tbl ns nid func a v rest st st1 st2 h1 h2 h3 hns h5
    simp only [inferExpr_call, h1, h2, h3]
    cases a with
    | name x y => simp only [h5]
    | str m w => exact absurd rfl (hns m w)
    | «attribute» x y z => simp only [h5]
    | call x y z => simp only [h5]
  · intro fuel tbl ns nid func a rest st st1 st2 h1 h2 h3 hns h5
    simp only [inferExpr_call, h1, h2, h3]
  · simp [get_client_calls, parse_code, bindTypesModule, inferBody, inferStmt,
      inferExpr, inferExprList, inferFunctionCall, bindTypesDef, processImports,
      assignTargets, mapFunctionParams, CST.get_inferred_type,
      CST.set_inferred_type, CST.lookup_sub_namespace, CST.register_ast_node,
      CST.lookup_ast_node, CST.has_ast_node, ScopeT.lookup, ScopeT.sid,
      ScopeT.sname, ScopeT.symbols, ScopeT.children, setNode, setSym, setSymNode,
      initState, collectModule, collectStmtList, collectStmt, collectExprList,
      collectExpr, collectNode, addCall, PExpr.nid, PStmt.nid, PStmt.params,
      SDK_PACKAGE, CREATE_CLIENT, P3, T3]

/-- Closed instance of C3 (direct-literal branch): a call node whose callee
node carries `Boto3CreateClientType` and whose first argument is the
literal "s3" is annotated `Boto3ClientType("s3")`. -/
theorem claim_C3_witness :
    inferExpr 3 ⟨T2, T2⟩ 0 (.call 60 (.str 50 "q") [.str 51 "s3"])
      ⟨setNode initState.nodeTy 50 (some .boto3CreateClient),
       initState.symTy, initState.symNode⟩ =
      .ok { (⟨setNode initState.nodeTy 50 (some .boto3CreateClient),
             initState.symTy, initState.symNode⟩ : AState) with
            nodeTy := setNode (setNode initState.nodeTy 50 (some .boto3CreateClient)) 60
              (some (.boto3Client "s3")) } :=
  claim_C3.1 2 ⟨T2, T2⟩ 0 60 51 (.str 50 "q") "s3" []
    ⟨setNode initState.nodeTy 50 (some .boto3CreateClient),
     initState.symTy, initState.symNode⟩
    ⟨setNode initState.nodeTy 50 (some .boto3CreateClient),
     initState.symTy, initState.symNode⟩
    ⟨setNode initState.nodeTy 50 (some .boto3CreateClient),
     initState.symTy, initState.symNode⟩
    rfl rfl (by simp [setNode, PExpr.nid, initState])

/-- C1: interprocedural propagation.  Concretely, `P1`
(`def make(): return boto3.client("s3")` then `x = make(); x.put_object()`)
maps to `{"s3": {"put_object"}}`; in general, `_infer_function_call`
analyzes the registered definition in its child scope (after mapping
positional argument types onto parameters), records a `FunctionType`
signature on the callee symbol, and gives the call node the return
type. -/
theorem claim_C1 :
    get_client_calls 32 P1 T1 = .ok [("s3", ["put_object"])] ∧
    (∀ (fuel : Nat) (tbl : CST) (nid : Nat) (fname : String) (args : List PExpr)
      (st : AState) (sub : CST) (dnode : PStmt) (st1 st2 : AState) (rt : Ty),
      tbl.lookup_sub_namespace fname = .ok sub →
      tbl.lookup_ast_node st fname = .ok dnode →
      mapFunctionParams sub args dnode.params st = .ok st1 →
      bindTypesDef fuel sub dnode st1 = .ok st2 →
      st2.nodeTy dnode.nid = some (.functionType rt) →
      ∃ st3, tbl.set_inferred_type st2 fname (some (.functionType rt)) = .ok st3 ∧
        inferFunctionCall (fuel + 1) tbl nid fname args st =
          .ok { st3 with nodeTy := setNode st3.nodeTy nid (some rt) }) := by
  constructor
  · simp [get_client_calls, parse_code, bindTypesModule, inferBody, inferStmt,
      inferExpr, inferExprList, inferFunctionCall, bindTypesDef, processImports,
      assignTargets, mapFunctionParams, CST.get_inferred_type,
      CST.set_inferred_type, CST.lookup_sub_namespace, CST.register_ast_node,
      CST.lookup_ast_node, CST.has_ast_node, ScopeT.lookup, ScopeT.sid,
      ScopeT.sname, ScopeT.symbols, ScopeT.children, setNode, setSym, setSymNode,
      initState, collectModule, collectStmtList, collectStmt, collectExprList,
      collectExpr, collectNode, addCall, PExpr.nid, PStmt.nid, PStmt.params,
      SDK_PACKAGE, CREATE_CLIENT, P1, T1]
  · intro fuel tbl nid fname args st sub dnode st1 st2 rt h1 h2 h3 h4 h5
    obtain ⟨sym, hsym⟩ := lookup_ast_node_local h2
    refine ⟨{ st2 with
        symTy := setSym st2.symTy tbl.localTable.sid fname
          (some (.functionType rt)) }, ?_, ?_⟩
    · simp only [CST.set_inferred_type, hsym]
    · simp only [inferFunctionCall_succ, h1, h2, h3, h4, h5,
        CST.set_inferred_type, hsym]

/-- Closed instance of C1 (general part): calling a registered
zero-parameter definition whose analysis left `FunctionType(ModuleHandle)`
on its node records that signature on the symbol and types the call node
with the return type. -/
theorem claim_C1_witness :
    ∃ st3,
      CST.set_inferred_type
        ⟨.mk 0 "top" [⟨"g", false⟩] [.mk 1 "g" [] []],
         .mk 0 "top" [⟨"g", false⟩] [.mk 1 "g" [] []]⟩
        ⟨setNode initState.nodeTy 5 (some (.functionType .boto3Module)),
         initState.symTy,
         setSymNode initState.symNode 0 "g" (.functionDef 5 "g" [] [] [])⟩
        "g" (some (.functionType .boto3Module)) = .ok st3 ∧
      inferFunctionCall 4
        ⟨.mk 0 "top" [⟨"g", false⟩] [.mk 1 "g" [] []],
         .mk 0 "top" [⟨"g", false⟩] [.mk 1 "g" [] []]⟩
        9 "g" []
        ⟨setNode initState.nodeTy 5 (some (.functionType .boto3Module)),
         initState.symTy,
         setSymNode initState.symNode 0 "g" (.functionDef 5 "g" [] [] [])⟩ =
        .ok { st3 with nodeTy := setNode st3.nodeTy 9 (some .boto3Module) } :=
  claim_C1.2 3
    ⟨.mk 0 "top" [⟨"g", false⟩] [.mk 1 "g" [] []],
     .mk 0 "top" [⟨"g", false⟩] [.mk 1 "g" [] []]⟩
    9 "g" []
    ⟨setNode initState.nodeTy 5 (some (.functionType .boto3Module)),
     initState.symTy,
     setSymNode initState.symNode 0 "g" (.functionDef 5 "g" [] [] [])⟩
    ⟨.mk 1 "g" [] [], .mk 0 "top" [⟨"g", false⟩] [.mk 1 "g" [] []]⟩
    (.functionDef 5 "g" [] [] [])
    ⟨setNode initState.nodeTy 5 (some (.functionType .boto3Module)),
     initState.symTy,
     setSymNode initState.symNode 0 "g" (.functionDef 5 "g" [] [] [])⟩
    ⟨setNode initState.nodeTy 5 (some (.functionType .boto3Module)),
     initState.symTy,
     setSymNode initState.symNode 0 "g" (.functionDef 5 "g" [] [] [])⟩
    .boto3Module rfl rfl rfl rfl (by simp [setNode, PStmt.nid, initState])

/-- C5: application-mode reachability.  `_is_chalice_view` holds exactly
when some decorator is a call whose target is an attribute access named
`route` with at least one positional argument; the transformer then inserts
a synthetic zero-argument call immediately after the definition; and
concretely the undecorated-call view program `P5` appears in
`get_client_calls_for_app` but not in plain `get_client_calls`. -/
theorem claim_C5 :
    (∀ decs : List PExpr, isChaliceView decs = true ↔
      ∃ cnid anid b dargs,
        PExpr.call cnid (PExpr.attribute anid b "route") dargs ∈ decs ∧
        dargs ≠ []) ∧
    (∀ (base nid : Nat) (name : String) (ps : List String) (decs : List PExpr)
      (body rest : List PStmt), isChaliceView decs = true →
      transformBody base (.functionDef nid name ps decs body :: rest) =
        .functionDef nid name ps decs body :: autoInvoke base name ::
          transformBody (base + 3) rest) ∧
    get_client_calls_for_app 32 P5 T5 = .ok [("s3", ["get_object"])] ∧
    get_client_calls 32 P5 T5 = .ok [] := by
  refine ⟨?_, ?_, ?_, ?_⟩
  · intro decs
    constructor
    · intro h
      rcases List.any_eq_true.mp h with ⟨d, hdmem, hd⟩
      cases d with
      | name x y => simp at hd
      | str x y => simp at hd
      | «attribute» x y z => simp at hd
      | call cnid f dargs =>
        cases f with
        | name x y => simp at hd
        | str x y => simp at hd
        | call x y z => simp at hd
        | «attribute» anid b attr =>
          simp only [Bool.and_eq_true, decide_eq_true_eq, Bool.not_eq_true',
            List.isEmpty_eq_false] at hd
          exact ⟨cnid, anid, b, dargs, hd.1 ▸ hdmem, hd.2⟩
    · rintro ⟨cnid, anid, b, dargs, hdmem, hne⟩
      exact List.any_eq_true.mpr ⟨_, hdmem, by simp [hne]⟩
  · intro base nid name ps decs body rest h
    simp [transformBody, h]
  · simp [get_client_calls_for_app, parse_code, appViewTransformModule,
      PModule.maxNid, PStmt.maxNid, PExpr.maxNid, maxNidStmtList,
      maxNidExprList, transformBody, isChaliceView, autoInvoke,
      bindTypesModule, inferBody, inferStmt,
      inferExpr, inferExprList, inferFunctionCall, bindTypesDef, processImports,
      assignTargets, mapFunctionParams, CST.get_inferred_type,
      CST.set_inferred_type, CST.lookup_sub_namespace, CST.register_ast_node,
      CST.lookup_ast_node, CST.has_ast_node, ScopeT.lookup, ScopeT.sid,
      ScopeT.sname, ScopeT.symbols, ScopeT.children, setNode, setSym, setSymNode,
      initState, collectModule, collectStmtList, collectStmt, collectExprList,
      collectExpr, collectNode, addCall, PExpr.nid, PStmt.nid, PStmt.params,
      SDK_PACKAGE, CREATE_CLIENT, P5, T5]
  · simp [get_client_calls, parse_code, bindTypesModule, inferBody, inferStmt,
      inferExpr, inferExprList, inferFunctionCall, bindTypesDef, processImports,
      assignTargets, mapFunctionParams, CST.get_inferred_type,
      CST.set_inferred_type, CST.lookup_sub_namespace, CST.register_ast_node,
      CST.lookup_ast_node, CST.has_ast_node, ScopeT.lookup, ScopeT.sid,
      ScopeT.sname, ScopeT.symbols, ScopeT.children, setNode, setSym, setSymNode,
      initState, collectModule, collectStmtList, collectStmt, collectExprList,
      collectExpr, collectNode, addCall, PExpr.nid, PStmt.nid, PStmt.params,
      SDK_PACKAGE, CREATE_CLIENT, P5, T5]

/-- Closed instance of C5 (insertion): transforming the route-decorated
`view` definition of `P5` inserts `view()` immediately after it. -/
theorem claim_C5_witness :
    transformBody 14
      [.functionDef 6 "view" []
        [.call 2 (.attribute 3 (.name 4 "app") "route") [.str 5 "/"]]
        [.exprStmt 7 (.call 8 (.attribute 9
          (.call 10 (.attribute 11 (.name 12 "boto3") "client") [.str 13 "s3"])
          "get_object") [])]] =
      [.functionDef 6 "view" []
        [.call 2 (.attribute 3 (.name 4 "app") "route") [.str 5 "/"]]
        [.exprStmt 7 (.call 8 (.attribute 9
          (.call 10 (.attribute 11 (.name 12 "boto3") "client") [.str 13 "s3"])
          "get_object") [])],
       autoInvoke 14 "view"] :=
  claim_C5.2.1 14 6 "view" []
    [.call 2 (.attribute 3 (.name 4 "app") "route") [.str 5 "/"]]
    [.exprStmt 7 (.call 8 (.attribute 9
      (.call 10 (.attribute 11 (.name 12 "boto3") "client") [.str 13 "s3"])
      "get_object") [])] [] rfl

/-!
## Provenance: every name in the output comes from the source

The machinery below supports the no-fabrication invariant: every string
literal and attribute name occurring inside any inferred type (on a node or
a symbol) during the analysis is a literal, respectively an attribute name,
of the analyzed tree, and hence so is every service and method name in the
final mapping.
-/

mutual

/-- All string-literal values occurring in an expression. -/
def PExpr.strLits : PExpr → List String
  | .name _ _ => []
  | .str _ v => [v]
  | .attribute _ b _ => b.strLits
  | .call _ f args => f.strLits ++ strLitsList args

def strLitsList : List PExpr → List String
  | [] => []
  | e :: rest => e.strLits ++ strLitsList rest

end

mutual

/-- All attribute names occurring in an expression. -/
def PExpr.attrNames : PExpr → List String
  | .name _ _ => []
  | .str _ _ => []
  | .attribute _ b attr => attr :: b.attrNames
  | .call _ f args => f.attrNames ++ attrNamesList args

def attrNamesList : List PExpr → List String
  | [] => []
  | e :: rest => e.attrNames ++ attrNamesList rest

end

mutual

/-- All string-literal values occurring in a statement (decorators
included). -/
def PStmt.strLits : PStmt → List String
  | .importStmt _ _ => []
  | .assign _ ts v => strLitsList ts ++ v.strLits
  | .exprStmt _ v => v.strLits
  | .ret _ none => []
  | .ret _ (some v) => v.strLits
  | .functionDef _ _ _ decs body => strLitsList decs ++ stmtStrLitsList body

def stmtStrLitsList : List PStmt → List String
  | [] => []
  | s :: rest => s.strLits ++ stmtStrLitsList rest

end

mutual

/-- All attribute names occurring in a statement. -/
def PStmt.attrNames : PStmt → List String
  | .importStmt _ _ => []
  | .assign _ ts v => attrNamesList ts ++ v.attrNames
  | .exprStmt _ v => v.attrNames
  | .ret _ none => []
  | .ret _ (some v) => v.attrNames
  | .functionDef _ _ _ decs body => attrNamesList decs ++ stmtAttrNamesList body

def stmtAttrNamesList : List PStmt → List String
  | [] => []
  | s :: rest => s.attrNames ++ stmtAttrNamesList rest

end

def PModule.strLits (m : PModule) : List String := stmtStrLitsList m.body

def PModule.attrNames (m : PModule) : List String := stmtAttrNamesList m.body

/-- A type value draws all its service names (and literal payloads) from
`ls` and all its method names from `ms`. -/
def TyFromSource (ls ms : List String) : Ty → Prop
  | .boto3Module => True
  | .boto3CreateClient => True
  | .boto3Client s => s ∈ ls
  | .boto3ClientMethod s m => s ∈ ls ∧ m ∈ ms
  | .boto3ClientMethodCall s m => s ∈ ls ∧ m ∈ ms
  | .functionType rt => TyFromSource ls ms rt
  | .stringLiteral v => v ∈ ls

def OptFromSource (ls ms : List String) (o : Option Ty) : Prop :=
  ∀ t, o = some t → TyFromSource ls ms t

def ExprFromSource (ls ms : List String) (e : PExpr) : Prop :=
  e.strLits ⊆ ls ∧ e.attrNames ⊆ ms

def ExprListFromSource (ls ms : List String) (es : List PExpr) : Prop :=
  strLitsList es ⊆ ls ∧ attrNamesList es ⊆ ms

def StmtFromSource (ls ms : List String) (s : PStmt) : Prop :=
  s.strLits ⊆ ls ∧ s.attrNames ⊆ ms

def BodyFromSource (ls ms : List String) (ss : List PStmt) : Prop :=
  stmtStrLitsList ss ⊆ ls ∧ stmtAttrNamesList ss ⊆ ms

/-- The invariant over the analyzer state: every inferred type stored on a
node or a symbol draws its names from the source, and every registered
definition node is made of source material. -/
def StateFromSource (ls ms : List String) (st : AState) : Prop :=
  (∀ n t, st.nodeTy n = some t → TyFromSource ls ms t) ∧
  (∀ sid x t, st.symTy sid x = some t → TyFromSource ls ms t) ∧
  (∀ sid x d, st.symNode sid x = some d → StmtFromSource ls ms d)

theorem exprFrom_attribute {ls ms : List String} {nid : Nat} {b : PExpr}
    {attr : String} (h : ExprFromSource ls ms (.attribute nid b attr)) :
    ExprFromSource ls ms b ∧ attr ∈ ms := by
  obtain ⟨h1, h2⟩ := h
  simp only [PExpr.strLits, PExpr.attrNames, List.cons_subset] at h1 h2
  exact ⟨⟨h1, h2.2⟩, h2.1⟩

theorem exprFrom_call {ls ms : List String} {nid : Nat} {f : PExpr}
    {args : List PExpr} (h : ExprFromSource ls ms (.call nid f args)) :
    ExprFromSource ls ms f ∧ ExprListFromSource ls ms args := by
  obtain ⟨h1, h2⟩ := h
  simp only [PExpr.strLits, PExpr.attrNames, List.append_subset] at h1 h2
  exact ⟨⟨h1.1, h2.1⟩, ⟨h1.2, h2.2⟩⟩

theorem exprListFrom_cons {ls ms : List String} {e : PExpr} {es : List PExpr}
    (h : ExprListFromSource ls ms (e :: es)) :
    ExprFromSource ls ms e ∧ ExprListFromSource ls ms es := by
  obtain ⟨h1, h2⟩ := h
  simp only [strLitsList, attrNamesList, List.append_subset] at h1 h2
  exact ⟨⟨h1.1, h2.1⟩, ⟨h1.2, h2.2⟩⟩

theorem stmtFrom_assign {ls ms : List String} {nid : Nat} {ts : List PExpr}
    {v : PExpr} (h : StmtFromSource ls ms (.assign nid ts v)) :
    ExprListFromSource ls ms ts ∧ ExprFromSource ls ms v := by
  obtain ⟨h1, h2⟩ := h
  simp only [PStmt.strLits, PStmt.attrNames, List.append_subset] at h1 h2
  exact ⟨⟨h1.1, h2.1⟩, ⟨h1.2, h2.2⟩⟩

theorem stmtFrom_exprStmt {ls ms : List String} {nid : Nat} {v : PExpr}
    (h : StmtFromSource ls ms (.exprStmt nid v)) : ExprFromSource ls ms v := h

theorem stmtFrom_ret {ls ms : List String} {nid : Nat} {v : PExpr}
    (h : StmtFromSource ls ms (.ret nid (some v))) : ExprFromSource ls ms v := h

theorem stmtFrom_functionDef {ls ms : List String} {nid : Nat} {name : String}
    {ps : List String} {decs : List PExpr} {body : List PStmt}
    (h : StmtFromSource ls ms (.functionDef nid name ps decs body)) :
    BodyFromSource ls ms body := by
  obtain ⟨h1, h2⟩ := h
  simp only [PStmt.strLits, PStmt.attrNames, List.append_subset] at h1 h2
  exact ⟨h1.2, h2.2⟩

theorem bodyFrom_cons {ls ms : List String} {s : PStmt} {ss : List PStmt}
    (h : BodyFromSource ls ms (s :: ss)) :
    StmtFromSource ls ms s ∧ BodyFromSource ls ms ss := by
  obtain ⟨h1, h2⟩ := h
  simp only [stmtStrLitsList, stmtAttrNamesList, List.append_subset] at h1 h2
  exact ⟨⟨h1.1, h2.1⟩, ⟨h1.2, h2.2⟩⟩

theorem stateFrom_setNode {ls ms : List String} {st : AState}
    (h : StateFromSource ls ms st) {n : Nat} {v : Option Ty}
    (hv : OptFromSource ls ms v) :
    StateFromSource ls ms { st with nodeTy := setNode st.nodeTy n v } := by
  refine ⟨fun n2 t ht => ?_, h.2.1, h.2.2⟩
  simp only [setNode] at ht
  split at ht
  · exact hv t ht
  · exact h.1 n2 t ht

theorem stateFrom_get_inferred {ls ms : List String} {t : CST} {st : AState}
    {nm : String} {o : Option Ty} (h : StateFromSource ls ms st)
    (hg : t.get_inferred_type st nm = .ok o) : OptFromSource ls ms o := by
  unfold CST.get_inferred_type at hg
  cases hl : t.localTable.lookup nm with
  | none => rw [hl] at hg; simp at hg
  | some sym =>
    rw [hl] at hg
    by_cases hgl : sym.isGlobal
    · simp only [hgl, if_true] at hg
      cases hg2 : t.globalTable.lookup nm with
      | none =>
        rw [hg2] at hg
        cases hg
        intro ty hty; cases hty
      | some sym2 =>
        rw [hg2] at hg
        cases hg
        intro ty hty
        exact h.2.1 _ _ _ hty
    · simp only [hgl, if_false] at hg
      cases hg
      intro ty hty
      exact h.2.1 _ _ _ hty

theorem stateFrom_set_inferred {ls ms : List String} {t : CST} {st st2 : AState}
    {nm : String} {v : Option Ty} (h : StateFromSource ls ms st)
    (hv : OptFromSource ls ms v)
    (hs : t.set_inferred_type st nm v = .ok st2) : StateFromSource ls ms st2 := by
  unfold CST.set_inferred_type at hs
  cases hl : t.localTable.lookup nm with
  | none => rw [hl] at hs; simp at hs
  | some sym =>
    rw [hl] at hs
    cases hs
    refine ⟨h.1, fun sid x ty hty => ?_, h.2.2⟩
    simp only [setSym] at hty
    split at hty
    · exact hv ty hty
    · exact h.2.1 sid x ty hty

theorem stateFrom_register {ls ms : List String} {t : CST} {st st2 : AState}
    {nm : String} {d : PStmt} (h : StateFromSource ls ms st)
    (hd : StmtFromSource ls ms d)
    (hs : t.register_ast_node st nm d = .ok st2) : StateFromSource ls ms st2 := by
  unfold CST.register_ast_node at hs
  cases hl : t.localTable.lookup nm with
  | none => rw [hl] at hs; simp at hs
  | some sym =>
    rw [hl] at hs
    cases hs
    refine ⟨h.1, h.2.1, fun sid x d2 hd2 => ?_⟩
    simp only [setSymNode] at hd2
    split at hd2
    · cases hd2; exact hd
    · exact h.2.2 sid x d2 hd2

theorem stateFrom_lookup_ast_node {ls ms : List String} {t : CST} {st : AState}
    {nm : String} {d : PStmt} (h : StateFromSource ls ms st)
    (hs : t.lookup_ast_node st nm = .ok d) : StmtFromSource ls ms d := by
  unfold CST.lookup_ast_node at hs
  cases hl : t.localTable.lookup nm with
  | none => rw [hl] at hs; simp at hs
  | some sym =>
    rw [hl] at hs
    by_cases hgl : sym.isGlobal
    · simp only [hgl, if_true] at hs
      cases hg2 : t.globalTable.lookup nm with
      | none => rw [hg2] at hs; simp at hs
      | some sym2 =>
        rw [hg2] at hs
        cases hn : st.symNode t.globalTable.sid nm with
        | none => rw [hn] at hs; simp at hs
        | some d2 =>
          rw [hn] at hs
          cases hs
          exact h.2.2 _ _ _ hn
    · simp only [hgl, if_false] at hs
      cases hn : st.symNode t.localTable.sid nm with
      | none => rw [hn] at hs; simp at hs
      | some d2 =>
        rw [hn] at hs
        cases hs
        exact h.2.2 _ _ _ hn

theorem stateFrom_processImports {ls ms : List String} {tbl : CST} :
    ∀ {names : List (String × Option String)} {st st2 : AState},
      StateFromSource ls ms st → processImports tbl names st = .ok st2 →
      StateFromSource ls ms st2 := by
  intro names
  induction names with
  | nil => intro st st2 h hp; cases hp; exact h
  | cons nm rest ih =>
    intro st st2 h hp
    simp only [processImports] at hp
    split at hp
    · cases hs : tbl.set_inferred_type st nm.1 (some .boto3Module) with
      | error err => rw [hs] at hp; simp at hp
      | ok st1 =>
        rw [hs] at hp
        exact ih (stateFrom_set_inferred h
          (fun ty hty => by cases hty; trivial) hs) hp
    · exact ih h hp

theorem stateFrom_assignTargets {ls ms : List String} {tbl : CST}
    {rhs : Option Ty} (hv : OptFromSource ls ms rhs) :
    ∀ {targets : List PExpr} {st st2 : AState},
      StateFromSource ls ms st → assignTargets tbl rhs targets st = .ok st2 →
      StateFromSource ls ms st2 := by
  intro targets
  induction targets with
  | nil => intro st st2 h ha; cases ha; exact h
  | cons tg rest ih =>
    intro st st2 h ha
    cases tg with
    | name tnid tid =>
      simp only [assignTargets] at ha
      cases hs : tbl.set_inferred_type st tid rhs with
      | error err => rw [hs] at ha; simp at ha
      | ok st1 =>
        rw [hs] at ha
        exact ih (stateFrom_setNode (stateFrom_set_inferred h hv hs) hv) ha
    | str n v => exact ih h (by simpa [assignTargets] using ha)
    | «attribute» n b a => exact ih h (by simpa [assignTargets] using ha)
    | call n f args => exact ih h (by simpa [assignTargets] using ha)

theorem stateFrom_mapFunctionParams {ls ms : List String} {sub : CST} :
    ∀ {args : List PExpr} {ps : List String} {st st2 : AState},
      StateFromSource ls ms st → mapFunctionParams sub args ps st = .ok st2 →
      StateFromSource ls ms st2 := by
  intro args
  induction args with
  | nil =>
    intro ps st st2 h hm
    cases ps <;> (cases hm; exact h)
  | cons a rest ih =>
    intro ps st st2 h hm
    cases ps with
    | nil => cases hm; exact h
    | cons p ps2 =>
      simp only [mapFunctionParams] at hm
      cases hn : st.nodeTy a.nid with
      | none => simp only [hn] at hm; exact ih h hm
      | some ty =>
        simp only [hn] at hm
        cases hs : sub.set_inferred_type st p (some ty) with
        | error err => simp only [hs] at hm; simp at hm
        | ok st1 =>
          simp only [hs] at hm
          exact ih (stateFrom_set_inferred h
            (fun t2 ht2 => by cases ht2; exact h.1 _ _ hn) hs) hm

/-- The engine never fabricates names: every run of any engine function on
source material preserves `StateFromSource` (proved simultaneously for all
six mutually recursive functions, by induction on fuel). -/
theorem engine_preserves_from_source (ls ms : List String) : ∀ fuel : Nat,
    (∀ (tbl : CST) (ns : Nat) (e : PExpr) (st st1 : AState),
      StateFromSource ls ms st → ExprFromSource ls ms e →
      inferExpr fuel tbl ns e st = .ok st1 → StateFromSource ls ms st1) ∧
    (∀ (tbl : CST) (ns : Nat) (es : List PExpr) (st st1 : AState),
      StateFromSource ls ms st → ExprListFromSource ls ms es →
      inferExprList fuel tbl ns es st = .ok st1 → StateFromSource ls ms st1) ∧
    (∀ (tbl : CST) (ns : Nat) (s : PStmt) (st st1 : AState),
      StateFromSource ls ms st → StmtFromSource ls ms s →
      inferStmt fuel tbl ns s st = .ok st1 → StateFromSource ls ms st1) ∧
    (∀ (tbl : CST) (ns : Nat) (ss : List PStmt) (st st1 : AState),
      StateFromSource ls ms st → BodyFromSource ls ms ss →
      inferBody fuel tbl ns ss st = .ok st1 → StateFromSource ls ms st1) ∧
    (∀ (tbl : CST) (nid : Nat) (fname : String) (args : List PExpr)
      (st st1 : AState),
      StateFromSource ls ms st → ExprListFromSource ls ms args →
      inferFunctionCall fuel tbl nid fname args st = .ok st1 →
      StateFromSource ls ms st1) ∧
    (∀ (tbl : CST) (d : PStmt) (st st1 : AState),
      StateFromSource ls ms st → StmtFromSource ls ms d →
      bindTypesDef fuel tbl d st = .ok st1 → StateFromSource ls ms st1) := by
  intro fuel
  induction fuel with
  | zero =>
    refine ⟨fun tbl ns e st st1 _ _ h => ?_, fun tbl ns es st st1 _ _ h => ?_,
      fun tbl ns s st st1 _ _ h => ?_, fun tbl ns ss st st1 _ _ h => ?_,
      fun tbl nid fn args st st1 _ _ h => ?_, fun tbl d st st1 _ _ h => ?_⟩
    · rw [inferExpr_zero] at h; exact Except.noConfusion h
    · rw [inferExprList_zero] at h; exact Except.noConfusion h
    · rw [inferStmt_zero] at h; exact Except.noConfusion h
    · rw [inferBody_zero] at h; exact Except.noConfusion h
    · rw [inferFunctionCall_zero] at h; exact Except.noConfusion h
    · rw [bindTypesDef_zero] at h; exact Except.noConfusion h
  | succ fuel ih =>
    obtain ⟨ihE, ihEL, ihS, ihB, ihF, ihD⟩ := ih
    refine ⟨?_, ?_, ?_, ?_, ?_, ?_⟩
    · -- inferExpr
      intro tbl ns e st st1 hSt hE h
      cases e with
      | name nid id =>
        simp only [inferExpr_name] at h
        cases hg : tbl.get_inferred_type st id with
        | error err => simp only [hg] at h; exact Except.noConfusion h
        | ok ty =>
          simp only [hg, Except.ok.injEq] at h
          subst h
          exact stateFrom_setNode hSt (stateFrom_get_inferred hSt hg)
      | str nid v =>
        simp only [inferExpr_str, Except.ok.injEq] at h
        subst h
        exact hSt
      | «attribute» nid b attr =>
        obtain ⟨hEb, hattr⟩ := exprFrom_attribute hE
        simp only [inferExpr_attribute] at h
        cases hb : inferExpr fuel tbl ns b st with
        | error err => simp only [hb] at h; exact Except.noConfusion h
        | ok stb =>
          simp only [hb] at h
          have hStb := ihE tbl ns b st stb hSt hEb hb
          cases hn : stb.nodeTy b.nid with
          | none =>
            simp only [hn, Except.ok.injEq] at h
            subst h
            exact hStb
          | some ty =>
            cases ty with
            | boto3Module =>
              simp only [hn] at h
              split at h <;> (simp only [Except.ok.injEq] at h; subst h)
              · exact stateFrom_setNode hStb (fun t ht => by cases ht; trivial)
              · exact hStb
            | boto3Client s =>
              simp only [hn, Except.ok.injEq] at h
              subst h
              refine stateFrom_setNode hStb (fun t ht => ?_)
              cases ht
              exact ⟨hStb.1 _ _ hn, hattr⟩
            | boto3CreateClient =>
              simp only [hn, Except.ok.injEq] at h; subst h; exact hStb
            | boto3ClientMethod s m =>
              simp only [hn, Except.ok.injEq] at h; subst h; exact hStb
            | boto3ClientMethodCall s m =>
              simp only [hn, Except.ok.injEq] at h; subst h; exact hStb
            | functionType rt =>
              simp only [hn, Except.ok.injEq] at h; subst h; exact hStb
            | stringLiteral v =>
              simp only [hn, Except.ok.injEq] at h; subst h; exact hStb
      | call nid func args =>
        obtain ⟨hEf, hEargs⟩ := exprFrom_call hE
        simp only [inferExpr_call] at h
        cases hf : inferExpr fuel tbl ns func st with
        | error err => simp only [hf] at h; exact Except.noConfusion h
        | ok stf =>
          simp only [hf] at h
          have hStf := ihE tbl ns func st stf hSt hEf hf
          cases hargs : inferExprList fuel tbl ns args stf with
          | error err => simp only [hargs] at h; exact Except.noConfusion h
          | ok sta =>
            simp only [hargs] at h
            have hSta := ihEL tbl ns args stf sta hStf hEargs hargs
            have hdefault : ∀ st2 : AState,
                (match func with
                  | PExpr.name _ fid =>
                    if tbl.has_ast_node sta fid = true then
                      inferFunctionCall fuel tbl nid fid args sta
                    else
                      .ok sta
                  | _ => .ok sta) = .ok st2 → StateFromSource ls ms st2 := by
              intro st2 h2
              cases func with
              | name x fid =>
                cases hhas : tbl.has_ast_node sta fid with
                | true =>
                  simp only [hhas, if_true] at h2
                  exact ihF tbl nid fid args sta st2 hSta hEargs h2
                | false =>
                  simp only [hhas, Bool.false_eq_true, if_false,
                    Except.ok.injEq] at h2
                  subst h2; exact hSta
              | str x y =>
                simp only [Except.ok.injEq] at h2; subst h2; exact hSta
              | «attribute» x y z =>
                simp only [Except.ok.injEq] at h2; subst h2; exact hSta
              | call x y z =>
                simp only [Except.ok.injEq] at h2; subst h2; exact hSta
            cases hft : sta.nodeTy func.nid with
            | none =>
              simp only [hft] at h
              exact hdefault st1 h
            | some ty =>
              cases ty with
              | boto3Module =>
                simp only [hft] at h
                exact hdefault st1 h
              | stringLiteral v =>
                simp only [hft] at h
                exact hdefault st1 h
              | boto3CreateClient =>
                simp only [hft] at h
                cases args with
                | nil =>
                  simp only [Except.ok.injEq] at h; subst h; exact hSta
                | cons a rest =>
                  obtain ⟨hEa, _⟩ := exprListFrom_cons hEargs
                  cases a with
                  | str anid v =>
                    simp only [Except.ok.injEq] at h
                    subst h
                    refine stateFrom_setNode hSta (fun t ht => ?_)
                    cases ht
                    exact hEa.1 (by simp [PExpr.strLits])
                  | name anid aid =>
                    cases ha : sta.nodeTy (PExpr.name anid aid).nid with
                    | none =>
                      simp only [ha, Except.ok.injEq] at h; subst h; exact hSta
                    | some aty =>
                      cases aty with
                      | stringLiteral v =>
                        simp only [ha, Except.ok.injEq] at h
                        subst h
                        refine stateFrom_setNode hSta (fun t ht => ?_)
                        cases ht
                        have hva := hSta.1 _ _ ha
                        exact hva
                      | boto3Module =>
                        simp only [ha, Except.ok.injEq] at h; subst h; exact hSta
                      | boto3CreateClient =>
                        simp only [ha, Except.ok.injEq] at h; subst h; exact hSta
                      | boto3Client s =>
                        simp only [ha, Except.ok.injEq] at h; subst h; exact hSta
                      | boto3ClientMethod s m =>
                        simp only [ha, Except.ok.injEq] at h; subst h; exact hSta
                      | boto3ClientMethodCall s m =>
                        simp only [ha, Except.ok.injEq] at h; subst h; exact hSta
                      | functionType rt =>
                        simp only [ha, Except.ok.injEq] at h; subst h; exact hSta
                  | «attribute» anid ab aattr =>
                    cases ha : sta.nodeTy (PExpr.attribute anid ab aattr).nid with
                    | none =>
                      simp only [ha, Except.ok.injEq] at h; subst h; exact hSta
                    | some aty =>
                      cases aty with
                      | stringLiteral v =>
                        simp only [ha, Except.ok.injEq] at h
                        subst h
                        refine stateFrom_setNode hSta (fun t ht => ?_)
                        cases ht
                        have hva := hSta.1 _ _ ha
                        exact hva
                      | boto3Module =>
                        simp only [ha, Except.ok.injEq] at h; subst h; exact hSta
                      | boto3CreateClient =>
                        simp only [ha, Except.ok.injEq] at h; subst h; exact hSta
                      | boto3Client s =>
                        simp only [ha, Except.ok.injEq] at h; subst h; exact hSta
                      | boto3ClientMethod s m =>
                        simp only [ha, Except.ok.injEq] at h; subst h; exact hSta
                      | boto3ClientMethodCall s m =>
                        simp only [ha, Except.ok.injEq] at h; subst h; exact hSta
                      | functionType rt =>
                        simp only [ha, Except.ok.injEq] at h; subst h; exact hSta
                  | call anid af aargs =>
                    cases ha : sta.nodeTy (PExpr.call anid af aargs).nid with
                    | none =>
                      simp only [ha, Except.ok.injEq] at h; subst h; exact hSta
                    | some aty =>
                      cases aty with
                      | stringLiteral v =>
                        simp only [ha, Except.ok.injEq] at h
                        subst h
                        refine stateFrom_setNode hSta (fun t ht => ?_)
                        cases ht
                        have hva := hSta.1 _ _ ha
                        exact hva
                      | boto3Module =>
                        simp only [ha, Except.ok.injEq] at h; subst h; exact hSta
                      | boto3CreateClient =>
                        simp only [ha, Except.ok.injEq] at h; subst h; exact hSta
                      | boto3Client s =>
                        simp only [ha, Except.ok.injEq] at h; subst h; exact hSta
                      | boto3ClientMethod s m =>
                        simp only [ha, Except.ok.injEq] at h; subst h; exact hSta
                      | boto3ClientMethodCall s m =>
                        simp only [ha, Except.ok.injEq] at h; subst h; exact hSta
                      | functionType rt =>
                        simp only [ha, Except.ok.injEq] at h; subst h; exact hSta
              | boto3Client s =>
                simp only [hft] at h
                exact hdefault st1 h
              | boto3ClientMethod s m =>
                simp only [hft, Except.ok.injEq] at h
                subst h
                refine stateFrom_setNode hSta (fun t ht => ?_)
                cases ht
                have hvf := hSta.1 _ _ hft
                exact hvf
              | boto3ClientMethodCall s m =>
                simp only [hft, Except.ok.injEq] at h
                subst h
                refine stateFrom_setNode hSta (fun t ht => ?_)
                cases ht
                have hvf := hSta.1 _ _ hft
                exact hvf
              | functionType rt =>
                simp only [hft, Except.ok.injEq] at h
                subst h
                refine stateFrom_setNode hSta (fun t ht => ?_)
                cases ht
                have hvr := hSta.1 _ _ hft
                exact hvr
    · -- inferExprList
      intro tbl ns es st st1 hSt hE h
      cases es with
      | nil =>
        simp only [inferExprList_nil, Except.ok.injEq] at h
        subst h
        exact hSt
      | cons e rest =>
        obtain ⟨hEe, hErest⟩ := exprListFrom_cons hE
        simp only [inferExprList_cons] at h
        cases he : inferExpr fuel tbl ns e st with
        | error err => simp only [he] at h; exact Except.noConfusion h
        | ok st2 =>
          simp only [he] at h
          exact ihEL tbl ns rest st2 st1 (ihE tbl ns e st st2 hSt hEe he) hErest h
    · -- inferStmt
      intro tbl ns s st st1 hSt hS h
      cases s with
      | importStmt nid names =>
        simp only [inferStmt_import] at h
        exact stateFrom_processImports hSt h
      | assign nid ts v =>
        obtain ⟨hEts, hEv⟩ := stmtFrom_assign hS
        simp only [inferStmt_assign] at h
        cases hts : inferExprList fuel tbl ns ts st with
        | error err => simp only [hts] at h; exact Except.noConfusion h
        | ok sta =>
          simp only [hts] at h
          have hSta := ihEL tbl ns ts st sta hSt hEts hts
          cases hv2 : inferExpr fuel tbl ns v sta with
          | error err => simp only [hv2] at h; exact Except.noConfusion h
          | ok stb =>
            simp only [hv2] at h
            have hStb := ihE tbl ns v sta stb hSta hEv hv2
            cases hrhs : stb.nodeTy v.nid with
            | some rhs =>
              simp only [hrhs] at h
              exact stateFrom_assignTargets
                (fun t ht => by cases ht; exact hStb.1 _ _ hrhs) hStb h
            | none =>
              simp only [hrhs] at h
              cases v with
              | str vnid w =>
                have hw : TyFromSource ls ms (.stringLiteral w) :=
                  hEv.1 (by simp [PExpr.strLits])
                exact stateFrom_assignTargets
                  (fun t ht => by cases ht; exact hw)
                  (stateFrom_setNode hStb (fun t ht => by cases ht; exact hw)) h
              | name x y =>
                exact stateFrom_assignTargets (fun t ht => by cases ht) hStb h
              | «attribute» x y z =>
                exact stateFrom_assignTargets (fun t ht => by cases ht) hStb h
              | call x y z =>
                exact stateFrom_assignTargets (fun t ht => by cases ht) hStb h
      | exprStmt nid v =>
        simp only [inferStmt_exprStmt] at h
        exact ihE tbl ns v st st1 hSt (stmtFrom_exprStmt hS) h
      | ret nid oval =>
        cases oval with
        | none =>
          simp only [inferStmt_ret_none, Except.ok.injEq] at h
          subst h
          exact hSt
        | some v =>
          simp only [inferStmt_ret] at h
          cases hv2 : inferExpr fuel tbl ns v st with
          | error err => simp only [hv2] at h; exact Except.noConfusion h
          | ok sta =>
            simp only [hv2] at h
            have hSta := ihE tbl ns v st sta hSt (stmtFrom_ret hS) hv2
            cases hty : sta.nodeTy v.nid with
            | none =>
              simp only [hty, Except.ok.injEq] at h
              subst h
              exact hSta
            | some ty =>
              simp only [hty, Except.ok.injEq] at h
              subst h
              have hty2 : TyFromSource ls ms ty := hSta.1 _ _ hty
              exact stateFrom_setNode
                (stateFrom_setNode hSta (fun t ht => by cases ht; exact hty2))
                (fun t ht => by cases ht; exact hty2)
      | functionDef nid name ps decs body =>
        simp only [inferStmt_functionDef] at h
        split at h
        · exact ihB tbl ns body st st1 hSt (stmtFrom_functionDef hS) h
        · exact stateFrom_register hSt hS h
    · -- inferBody
      intro tbl ns ss st st1 hSt hB h
      cases ss with
      | nil =>
        simp only [inferBody_nil, Except.ok.injEq] at h
        subst h
        exact hSt
      | cons s rest =>
        obtain ⟨hBs, hBrest⟩ := bodyFrom_cons hB
        simp only [inferBody_cons] at h
        cases hs : inferStmt fuel tbl ns s st with
        | error err => simp only [hs] at h; exact Except.noConfusion h
        | ok st2 =>
          simp only [hs] at h
          exact ihB tbl ns rest st2 st1 (ihS tbl ns s st st2 hSt hBs hs) hBrest h
    · -- inferFunctionCall
      intro tbl nid fname args st st1 hSt hEargs h
      simp only [inferFunctionCall_succ] at h
      cases hsub : tbl.lookup_sub_namespace fname with
      | error err => simp only [hsub] at h; exact Except.noConfusion h
      | ok sub =>
        simp only [hsub] at h
        cases hd : tbl.lookup_ast_node st fname with
        | error err => simp only [hd] at h; exact Except.noConfusion h
        | ok dnode =>
          simp only [hd] at h
          have hdFrom := stateFrom_lookup_ast_node hSt hd
          cases hmp : mapFunctionParams sub args dnode.params st with
          | error err => simp only [hmp] at h; exact Except.noConfusion h
          | ok sta =>
            simp only [hmp] at h
            have hSta := stateFrom_mapFunctionParams hSt hmp
            cases hbd : bindTypesDef fuel sub dnode sta with
            | error err => simp only [hbd] at h; exact Except.noConfusion h
            | ok stb =>
              simp only [hbd] at h
              have hStb := ihD sub dnode sta stb hSta hdFrom hbd
              cases hset : tbl.set_inferred_type stb fname (stb.nodeTy dnode.nid) with
              | error err => simp only [hset] at h; exact Except.noConfusion h
              | ok stc =>
                simp only [hset] at h
                have hStc := stateFrom_set_inferred hStb
                  (fun t ht => hStb.1 _ _ ht) hset
                cases hft : stb.nodeTy dnode.nid with
                | none =>
                  simp only [hft, Except.ok.injEq] at h; subst h; exact hStc
                | some ty =>
                  cases ty with
                  | functionType rt =>
                    simp only [hft, Except.ok.injEq] at h
                    subst h
                    refine stateFrom_setNode hStc (fun t ht => ?_)
                    cases ht
                    have hvr := hStb.1 _ _ hft
                    exact hvr
                  | boto3Module =>
                    simp only [hft, Except.ok.injEq] at h; subst h; exact hStc
                  | boto3CreateClient =>
                    simp only [hft, Except.ok.injEq] at h; subst h; exact hStc
                  | boto3Client s =>
                    simp only [hft, Except.ok.injEq] at h; subst h; exact hStc
                  | boto3ClientMethod s m =>
                    simp only [hft, Except.ok.injEq] at h; subst h; exact hStc
                  | boto3ClientMethodCall s m =>
                    simp only [hft, Except.ok.injEq] at h; subst h; exact hStc
                  | stringLiteral v =>
                    simp only [hft, Except.ok.injEq] at h; subst h; exact hStc
    · -- bindTypesDef
      intro tbl d st st1 hSt hD h
      simp only [bindTypesDef_succ] at h
      exact ihS tbl d.nid d st st1 hSt hD h

/-- The mapping invariant: every service key comes from `ls` and every
recorded method name from `ms`. -/
def MapFromSource (ls ms : List String) (mp : ApiMap) : Prop :=
  ∀ p ∈ mp, p.1 ∈ ls ∧ ∀ m ∈ p.2, m ∈ ms

theorem mapFrom_addCall {ls ms : List String} {s m : String} (hs : s ∈ ls) (hm : m ∈ ms) :
    ∀ {mp : ApiMap}, MapFromSource ls ms mp →
      MapFromSource ls ms (addCall mp s m) := by
  intro mp
  induction mp with
  | nil =>
    intro h p hp
    simp only [addCall, List.mem_singleton] at hp
    subst hp
    refine ⟨hs, fun m2 hm2 => ?_⟩
    simp only [List.mem_singleton] at hm2
    subst hm2
    exact hm
  | cons q rest ih =>
    obtain ⟨s0, ms0⟩ := q
    intro h
    by_cases heq : s0 = s
    · simp only [addCall, if_pos heq]
      intro p hp
      rcases List.mem_cons.mp hp with rfl | hp2
      · refine ⟨heq ▸ hs, fun m2 hm2 => ?_⟩
        by_cases hmem : m ∈ ms0
        · rw [if_pos hmem] at hm2
          exact (h (s0, ms0) (List.mem_cons_self _ _)).2 m2 hm2
        · rw [if_neg hmem] at hm2
          rcases List.mem_append.mp hm2 with h1 | h1
          · exact (h (s0, ms0) (List.mem_cons_self _ _)).2 m2 h1
          · simp only [List.mem_singleton] at h1
            subst h1
            exact hm
      · exact h p (List.mem_cons_of_mem _ hp2)
    · simp only [addCall, if_neg heq]
      intro p hp
      rcases List.mem_cons.mp hp with rfl | hp2
      · exact h (s0, ms0) (List.mem_cons_self _ _)
      · exact ih (fun p2 hp2b => h p2 (List.mem_cons_of_mem _ hp2b)) p hp2

theorem mapFrom_collectNode {ls ms : List String} {st : AState}
    (hSt : StateFromSource ls ms st) {acc : ApiMap}
    (h : MapFromSource ls ms acc) (n : Nat) :
    MapFromSource ls ms (collectNode st acc n) := by
  unfold collectNode
  cases hn : st.nodeTy n with
  | none => exact h
  | some ty =>
    cases ty with
    | boto3ClientMethodCall s m =>
      have hv := hSt.1 _ _ hn
      exact mapFrom_addCall hv.1 hv.2 h
    | boto3Module => exact h
    | boto3CreateClient => exact h
    | boto3Client s => exact h
    | boto3ClientMethod s m => exact h
    | functionType rt => exact h
    | stringLiteral v => exact h

mutual

theorem mapFrom_collectExpr {ls ms : List String} {st : AState}
    (hSt : StateFromSource ls ms st) :
    ∀ (e : PExpr) (acc : ApiMap), MapFromSource ls ms acc →
      MapFromSource ls ms (collectExpr st acc e)
  | .name nid x, acc, h => by
    simp only [collectExpr]
    exact mapFrom_collectNode hSt h nid
  | .str nid x, acc, h => by
    simp only [collectExpr]
    exact mapFrom_collectNode hSt h nid
  | .attribute nid b a, acc, h => by
    simp only [collectExpr]
    exact mapFrom_collectExpr hSt b _ (mapFrom_collectNode hSt h nid)
  | .call nid f args, acc, h => by
    simp only [collectExpr]
    exact mapFrom_collectExprList hSt args _
      (mapFrom_collectExpr hSt f _ (mapFrom_collectNode hSt h nid))

theorem mapFrom_collectExprList {ls ms : List String} {st : AState}
    (hSt : StateFromSource ls ms st) :
    ∀ (es : List PExpr) (acc : ApiMap), MapFromSource ls ms acc →
      MapFromSource ls ms (collectExprList st acc es)
  | [], acc, h => by simpa only [collectExprList] using h
  | e :: rest, acc, h => by
    simp only [collectExprList]
    exact mapFrom_collectExprList hSt rest _ (mapFrom_collectExpr hSt e _ h)

end

mutual

theorem mapFrom_collectStmt {ls ms : List String} {st : AState}
    (hSt : StateFromSource ls ms st) :
    ∀ (s : PStmt) (acc : ApiMap), MapFromSource ls ms acc →
      MapFromSource ls ms (collectStmt st acc s)
  | .importStmt nid x, acc, h => by
    simp only [collectStmt]
    exact mapFrom_collectNode hSt h nid
  | .assign nid ts v, acc, h => by
    simp only [collectStmt]
    exact mapFrom_collectExpr hSt v _
      (mapFrom_collectExprList hSt ts _ (mapFrom_collectNode hSt h nid))
  | .exprStmt nid v, acc, h => by
    simp only [collectStmt]
    exact mapFrom_collectExpr hSt v _ (mapFrom_collectNode hSt h nid)
  | .ret nid none, acc, h => by
    simp only [collectStmt]
    exact mapFrom_collectNode hSt h nid
  | .ret nid (some v), acc, h => by
    simp only [collectStmt]
    exact mapFrom_collectExpr hSt v _ (mapFrom_collectNode hSt h nid)
  | .functionDef nid nm ps decs body, acc, h => by
    simp only [collectStmt]
    exact mapFrom_collectExprList hSt decs _
      (mapFrom_collectStmtList hSt body _ (mapFrom_collectNode hSt h nid))

theorem mapFrom_collectStmtList {ls ms : List String} {st : AState}
    (hSt : StateFromSource ls ms st) :
    ∀ (ss : List PStmt) (acc : ApiMap), MapFromSource ls ms acc →
      MapFromSource ls ms (collectStmtList st acc ss)
  | [], acc, h => by simpa only [collectStmtList] using h
  | s :: rest, acc, h => by
    simp only [collectStmtList]
    exact mapFrom_collectStmtList hSt rest _ (mapFrom_collectStmt hSt s _ h)

end

theorem mapFrom_collectModule {ls ms : List String} {st : AState}
    {m : PModule} (hSt : StateFromSource ls ms st) :
    MapFromSource ls ms (collectModule st m) := by
  unfold collectModule
  refine mapFrom_collectStmtList hSt m.body _ (mapFrom_collectNode hSt ?_ m.nid)
  intro p hp
  exact absurd hp (List.not_mem_nil p)

/-- Counterexample to C4 as stated: analyzing `P4`
(`s3 = boto3.client("s3"); def f(): return s3.get_object(); x = f()`)
annotates the call node `f()` (node 15) with the terminal
`Boto3ClientMethodCallType("s3", "get_object")` through the
`FunctionType` branch of `visit_Call`, although its callee node (node 16,
the name `f`) has no inferred type at all — in particular its type is not
`Boto3ClientMethodType` — so terminal annotations do not arise only at
calls of `ServiceMethodRef`-typed callees. -/
theorem claim_C4_counterexample :
    (bindTypesModule 32 ⟨T4, T4⟩ P4 initState).map
      (fun st => (st.nodeTy 15, st.nodeTy 16)) =
      .ok (some (.boto3ClientMethodCall "s3" "get_object"), none) := by
  simp [Except.map, bindTypesModule, inferBody, inferStmt,
    inferExpr, inferExprList, inferFunctionCall, bindTypesDef, processImports,
    assignTargets, mapFunctionParams, CST.get_inferred_type,
    CST.set_inferred_type, CST.lookup_sub_namespace, CST.register_ast_node,
    CST.lookup_ast_node, CST.has_ast_node, ScopeT.lookup, ScopeT.sid,
    ScopeT.sname, ScopeT.symbols, ScopeT.children, setNode, setSym, setSymNode,
    initState, PExpr.nid, PStmt.nid, PStmt.params,
    SDK_PACKAGE, CREATE_CLIENT, P4, T4]

/-- C4 (amended): the analysis never fabricates an API call out of thin
air.  Terminal `ServiceMethodInvocation` annotations can also be copied to
call sites via `FunctionSignature` returns, to assignment targets and to
return statements, but the underlying (service, method) data always
originates in the source: whenever the analyze entry point succeeds, every
service key of the output mapping occurs as a string literal of the
analyzed tree and every recorded method name occurs as an attribute name
of the tree — the analysis may under-report but never invents names. -/
theorem claim_C4 (fuel : Nat) (ast : PModule) (table : ScopeT) (res : ApiMap)
    (h : get_client_calls fuel ast table = .ok res) :
    ∀ p ∈ res, p.1 ∈ ast.strLits ∧ ∀ m ∈ p.2, m ∈ ast.attrNames := by
  simp only [get_client_calls, parse_code] at h
  cases hb : bindTypesModule fuel ⟨table, table⟩ ast initState with
  | error err =>
    rw [hb] at h
    exact Except.noConfusion h
  | ok stf =>
    rw [hb] at h
    simp only [Except.ok.injEq] at h
    subst h
    have hInit : StateFromSource ast.strLits ast.attrNames initState :=
      ⟨fun n t ht => by simp [initState] at ht,
       fun a b t ht => by simp [initState] at ht,
       fun a b d hd => by simp [initState] at hd⟩
    have hBody : BodyFromSource ast.strLits ast.attrNames ast.body :=
      ⟨fun x hx => hx, fun x hx => hx⟩
    have hSt :=
      (engine_preserves_from_source ast.strLits ast.attrNames fuel).2.2.2.1
        ⟨table, table⟩ ast.nid ast.body initState stf hInit hBody hb
    exact fun p hp => mapFrom_collectModule hSt p hp

/-- Closed instance of the amended C4 at `P4`: the single reported pair
takes its service name from a string literal of the source and its method
name from an attribute access of the source. -/
theorem claim_C4_witness :
    "s3" ∈ P4.strLits ∧ "get_object" ∈ P4.attrNames := by
  have h := claim_C4 32 P4 T4 [("s3", ["get_object"])] (by
    simp [get_client_calls, parse_code, bindTypesModule, inferBody, inferStmt,
      inferExpr, inferExprList, inferFunctionCall, bindTypesDef, processImports,
      assignTargets, mapFunctionParams, CST.get_inferred_type,
      CST.set_inferred_type, CST.lookup_sub_namespace, CST.register_ast_node,
      CST.lookup_ast_node, CST.has_ast_node, ScopeT.lookup, ScopeT.sid,
      ScopeT.sname, ScopeT.symbols, ScopeT.children, setNode, setSym, setSymNode,
      initState, collectModule, collectStmtList, collectStmt, collectExprList,
      collectExpr, collectNode, addCall, PExpr.nid, PStmt.nid, PStmt.params,
      SDK_PACKAGE, CREATE_CLIENT, P4, T4])
  have h2 := h ("s3", ["get_object"]) (List.mem_singleton.mpr rfl)
  exact ⟨h2.1, h2.2 "get_object" (List.mem_singleton.mpr rfl)⟩

end Chalice
